import Mathlib

/-!
Verification of the robot_server repository against its specification.

The embedding models bytes as natural numbers (one `Nat` per byte), byte
strings as `List Nat`, and the fallible operations of the server as values
of a `Result` type mirroring `common/result.py`.  Stateful handlers
(the frame reader with its leftover queue) are modelled by explicit state
passing; the transport is a finite list of non-empty chunks, matching the
at-most-8-byte chunks `StreamReader.read(8)` delivers.
-/

namespace RobotServer

/-- Message ending sequence `CMD_POSTFIX_B = b"\a\b"` from `common/config.py`. -/
def sentinelB : List Nat := [7, 8]

/-- Error kinds from `server/exceptions.py` (payload messages are irrelevant
to control flow and are dropped). -/
inductive ServerError where
  | commandKeyIdOutOfRangeError
  | commandLoginFailError
  | commandSyntaxError
  | logicError
  | serverTimeoutError
  | commandNumberFormatError
deriving DecidableEq, Repr

/-- Result type mirroring `common/result.py` (`Ok`/`Err`). -/
inductive Result (α : Type) where
  | ok (value : α)
  | err (error : ServerError)
deriving DecidableEq, Repr

/-- Key pair from `common/payloads.py`. -/
structure KeysPair where
  server_key : Nat
  client_key : Nat
deriving DecidableEq, Repr

/-- The reference key table `KEYS` from `common/config.py`. -/
def KEYS : List KeysPair :=
  [⟨23019, 32037⟩, ⟨32037, 29295⟩, ⟨18789, 13603⟩, ⟨16443, 29533⟩, ⟨18189, 21952⟩]

/-- Coordinates from `common/data_classes.py`. -/
structure Coords where
  x : Int
  y : Int
deriving DecidableEq, Repr

/-- Side enum (`UP=0, RIGHT=1, DOWN=2, LEFT=3`); modular arithmetic on four
values is modelled by `Fin 4`, whose addition and subtraction agree with
Python's `% 4` on the enum's integer values. -/
abbrev Side := Fin 4

def Side.UP : Side := 0
def Side.RIGHT : Side := 1
def Side.DOWN : Side := 2
def Side.LEFT : Side := 3

/-- `Side.determine_side` from `common/data_classes.py`; the `ValueError`
branch is modelled as `none`. -/
def determineSide (oldCoords newCoords : Coords) : Option Side :=
  match decide (oldCoords.x = newCoords.x), decide (oldCoords.y = newCoords.y) with
  | true, false => some (if newCoords.y > oldCoords.y then Side.UP else Side.DOWN)
  | false, true => some (if newCoords.x > oldCoords.x then Side.RIGHT else Side.LEFT)
  | _, _ => none

/-- Robot state (`Orientation` dataclass): current coordinates and facing side. -/
structure Orient where
  coords : Coords
  side : Side
deriving DecidableEq, Repr

/-- `Orientation.turn_left`: `side = (side - 1) % 4`. -/
def Orient.turnLeftO (o : Orient) : Orient := { o with side := o.side - 1 }

/-- `Orientation.turn_right`: `side = (side + 1) % 4`. -/
def Orient.turnRightO (o : Orient) : Orient := { o with side := o.side + 1 }

/-! Command length data from `common/commands.py` (`TextLength`): `max_len`
is the payload cap, and the length including the postfix adds 2. -/

/-- Client command identifiers from `common/commands.py`. -/
inductive ClientCommand where
  | clientUsername
  | clientKeyId
  | clientConfirmation
  | clientOk
  | clientRecharging
  | clientFullPower
  | clientMessage
deriving DecidableEq, Repr

/-- `cmd_text` of the literal commands, as ASCII codes
(`"RECHARGING"` and `"FULL POWER"`); empty for length-only commands. -/
def ClientCommand.cmdText : ClientCommand → List Nat
  | .clientRecharging => [82, 69, 67, 72, 65, 82, 71, 73, 78, 71]
  | .clientFullPower => [70, 85, 76, 76, 32, 80, 79, 87, 69, 82]
  | _ => []

/-- `max_len` of each client command. -/
def ClientCommand.maxLen : ClientCommand → Nat
  | .clientUsername => 18
  | .clientKeyId => 3
  | .clientConfirmation => 5
  | .clientOk => 10
  | .clientRecharging => 10
  | .clientFullPower => 10
  | .clientMessage => 98

/-- `max_len_postfix = max_len + len(CMD_POSTFIX)`. -/
def ClientCommand.maxLenTotal (c : ClientCommand) : Nat := c.maxLen + 2

/-! The command matcher, `server/command_handlers/command_matcher.py`
(`DefaultCommandMatcher`) and `server/command_handlers/reg_checks.py`.
Decoded ASCII strings are kept as their byte codes. -/

/-- Python `data.rstrip(CMD_POSTFIX_B)`: strips ALL trailing bytes that are
members of the set `{0x07, 0x08}`, not just one trailing sentinel. -/
def pyRstripSep (data : List Nat) : List Nat :=
  ((data.reverse).dropWhile (fun b => b = 7 ∨ b = 8)).reverse

/-- Byte is an ASCII decimal digit. -/
def isDigitB (b : Nat) : Bool := 48 ≤ b ∧ b ≤ 57

/-- Python `re.match` of `^(\+|-|\d)?\d+$` (`is_int` in `reg_checks.py`).
An unanchored-at-the-end dollar also matches just before one final
newline, so a single trailing `\n` (byte 10) is tolerated, as in Python. -/
def is_int (s : List Nat) : Bool :=
  let core := if s.getLast? = some 10 then s.dropLast else s
  match core with
  | [] => false
  | c :: rest =>
      if c = 43 ∨ c = 45 then decide (rest ≠ []) && rest.all isDigitB
      else (c :: rest).all isDigitB

/-- Decimal value of a digit list. -/
def digitsVal (l : List Nat) : Nat := l.foldl (fun acc b => acc * 10 + (b - 48)) 0

/-- Python `int(s)` on strings accepted by `is_int` (surrounding whitespace,
here at most one trailing newline, is ignored; a leading `+`/`-` is a sign). -/
def pyInt (s : List Nat) : Int :=
  let core := if s.getLast? = some 10 then s.dropLast else s
  match core with
  | 43 :: rest => (digitsVal rest : Int)
  | 45 :: rest => -(digitsVal rest : Int)
  | l => (digitsVal l : Int)

/-- Python `re.match` of `^OK (\+|-)?\d+ (\+|-)?\d+$` (`matches_client_okay`),
with the same trailing-newline tolerance of `$`. -/
def matches_client_okay (s : List Nat) : Bool :=
  let core := if s.getLast? = some 10 then s.dropLast else s
  match core.splitOn 32 with
  | [ok, xs, ys] =>
      ok = [79, 75] && signedDigits xs && signedDigits ys
  | _ => false
where
  /-- `(\+|-)?\d+`. -/
  signedDigits (l : List Nat) : Bool :=
    match l with
    | [] => false
    | c :: rest =>
        if c = 43 ∨ c = 45 then decide (rest ≠ []) && rest.all isDigitB
        else (c :: rest).all isDigitB

/-- `CommandMatcher._decode_data`: require the sentinel suffix, strip all
trailing sentinel bytes, and decode to ASCII (modelled as the identity on
byte codes; theorems about the matcher restrict inputs to bytes < 128,
where Python's `bytes.decode("ascii")` cannot raise). -/
def decodeData (data : List Nat) : Result (List Nat) :=
  if sentinelB.isSuffixOf data then .ok (pyRstripSep data)
  else .err .commandSyntaxError

/-- `DefaultCommandMatcher.match_str` for `CLIENT_USERNAME` / `CLIENT_MESSAGE`. -/
def match_str (cmd : ClientCommand) (data : List Nat) : Result (List Nat) :=
  match decodeData data with
  | .err e => .err e
  | .ok decoded =>
      if 0 < decoded.length ∧ decoded.length ≤ cmd.maxLen then .ok decoded
      else .err .commandSyntaxError

/-- Value bound checked by `match_num`: `0xFFFF` for CONFIRMATION, `999` for KEY_ID. -/
def ClientCommand.numBound : ClientCommand → Int
  | .clientConfirmation => 0xFFFF
  | _ => 999

/-- `DefaultCommandMatcher.match_num` for `CLIENT_CONFIRMATION` / `CLIENT_KEY_ID`. -/
def match_num (cmd : ClientCommand) (data : List Nat) : Result Int :=
  match decodeData data with
  | .err e => .err e
  | .ok decoded =>
      if ¬(0 < decoded.length ∧ decoded.length ≤ cmd.maxLen) ∨ ¬is_int decoded then
        .err .commandSyntaxError
      else if 0 ≤ pyInt decoded ∧ pyInt decoded ≤ cmd.numBound then .ok (pyInt decoded)
      else .err .commandNumberFormatError

/-- `DefaultCommandMatcher.match_ok` for `CLIENT_OK`: on a regex match the
payload `OK x y` is split on spaces and the two integers are parsed. -/
def match_ok (data : List Nat) : Result Coords :=
  match decodeData data with
  | .err e => .err e
  | .ok decoded =>
      if 0 < decoded.length ∧ decoded.length ≤ ClientCommand.clientOk.maxLen
          ∧ matches_client_okay decoded then
        match decoded.splitOn 32 with
        | [_, xs, ys] => .ok ⟨pyInt xs, pyInt ys⟩
        | _ => .err .commandSyntaxError
      else .err .commandSyntaxError

/-- `DefaultCommandMatcher.match_none` for `CLIENT_RECHARGING` / `CLIENT_FULL_POWER`. -/
def match_none (cmd : ClientCommand) (data : List Nat) : Result Unit :=
  match decodeData data with
  | .err e => .err e
  | .ok decoded =>
      if decoded = cmd.cmdText then .ok () else .err .commandSyntaxError

/-! The frame reader, `server/socket_handlers/read_handler.py`
(`AnyLengthSepReadHandler`).  Its cross-call state is the leftover queue of
byte chunks (`_msg_queue`); the transport is a finite list of chunks, each
the result of one `StreamReader.read(8)` (so 1 to 8 bytes; an empty chunk or
an exhausted list is the timeout/peer-closed error).  The in-call
`SeparatorSplitter` state `_matched_bytes` is always a prefix of `True`s and
is represented by the count `ind` of matched sentinel bytes. -/

/-- One pass of `SeparatorSplitter.check`'s inner `while` over a chunk:
given the current match index and the remaining bytes, returns the final
match index together with the number of bytes consumed (`chunk_ind`) when
the full sentinel was matched.  A mismatch at `ind ≠ 0` resets the index to
0 and rechecks the same byte from state 0, as the source does. -/
def splitterRun : Nat → List Nat → Nat × Nat
  | ind, [] => (ind, 0)
  | ind0, b :: rest =>
      let ind := if ind0 ≠ 0 ∧ b ≠ sentinelB.getD ind0 256 then 0 else ind0
      if b = sentinelB.getD ind 256 then
        if ind + 1 = sentinelB.length then (sentinelB.length, 1)
        else
          let r := splitterRun (ind + 1) rest
          (r.1, r.2 + 1)
      else
        let r := splitterRun ind rest
        (r.1, r.2 + 1)

/-- `SeparatorSplitter.check`: split a chunk into the part of the current
message and, when the sentinel completed, the part of the next message.
Also returns the splitter's state after the call (reset on success). -/
def splitterCheck (ind : Nat) (chunk : List Nat) :
    List Nat × Option (List Nat) × Nat :=
  let r := splitterRun ind chunk
  if r.1 = sentinelB.length then (chunk.take r.2, some (chunk.drop r.2), 0)
  else (chunk, none, r.1)

/-- `SeparatorSplitter.__init__` with a beginning value: the initial match
index is the largest `i` with the last `i` bytes equal to the first `i`
sentinel bytes (checked for `i = 2` then `i = 1`). -/
def splitterInit (beginningValue : List Nat) : Nat :=
  if beginningValue = [] then 0
  else if beginningValue.drop (beginningValue.length - 2) = sentinelB.take 2 then 2
  else if beginningValue.drop (beginningValue.length - 1) = sentinelB.take 1 then 1
  else 0

/-- `AnyLengthSepReadHandler._get_from_queue`: drain the leftover queue with
a fresh splitter until the sentinel is produced or the queue is empty;
returns the collected bytes and the remaining queue. -/
def getFromQueue : Nat → List (List Nat) → List Nat × List (List Nat)
  | _, [] => ([], [])
  | ind, chunk :: rest =>
      match splitterCheck ind chunk with
      | (partOfCurrent, some partOfNext, _) =>
          (partOfCurrent, if partOfNext ≠ [] then partOfNext :: rest else rest)
      | (partOfCurrent, none, ind') =>
          let r := getFromQueue ind' rest
          (partOfCurrent ++ r.1, r.2)

/-- Reader state: the leftover queue and the not-yet-delivered transport chunks. -/
structure RState where
  queue : List (List Nat)
  stream : List (List Nat)
deriving DecidableEq, Repr

/-- Outcome of a read: the result together with the successor state. -/
structure ReadOut where
  result : Result (List Nat)
  state : RState
deriving DecidableEq, Repr

/-- The `while length < max_len` loop of `AnyLengthSepReadHandler.read`:
each iteration takes one chunk from the transport (none left, or an empty
chunk, is the timeout error), splits it, and stops when the sentinel
completed or the accumulated length reaches `max_len`; the final value is
truncated to `max_len` and must end with the sentinel. -/
def readLoop (maxLen : Nat) : Nat → List Nat → Nat → List (List Nat) →
    List (List Nat) → ReadOut
  | length, acc, ind, queue, stream =>
    if length < maxLen then
      match stream with
      | [] => ⟨.err .serverTimeoutError, ⟨queue, []⟩⟩
      | chunk :: rest =>
          if chunk = [] then ⟨.err .serverTimeoutError, ⟨queue, rest⟩⟩
          else
            match splitterCheck ind chunk with
            | (partOfCurrent, some partOfNext, _) =>
                readFinish maxLen (acc ++ partOfCurrent)
                  (queue ++ if partOfNext ≠ [] then [partOfNext] else []) rest
            | (partOfCurrent, none, ind') =>
                readLoop maxLen (length + partOfCurrent.length)
                  (acc ++ partOfCurrent) ind' queue rest
    else readFinish maxLen acc queue stream
where
  /-- The tail of `read`: truncate to `max_len` and check the sentinel. -/
  readFinish (maxLen : Nat) (acc : List Nat) (queue stream : List (List Nat)) :
      ReadOut :=
    let res := acc.take maxLen
    if sentinelB.isSuffixOf res then ⟨.ok res, ⟨queue, stream⟩⟩
    else ⟨.err .commandSyntaxError, ⟨queue, stream⟩⟩

/-- `AnyLengthSepReadHandler.read(max_len)`: serve from the leftover queue
first; if that already yields a sentinel-terminated message it is returned
as is, otherwise the transport loop continues from the queue remainder. -/
def readH (maxLen : Nat) (s : RState) : ReadOut :=
  let q := getFromQueue 0 s.queue
  let msg := q.1
  if sentinelB.isSuffixOf msg then ⟨.ok msg, ⟨q.2, s.stream⟩⟩
  else readLoop maxLen msg.length msg (splitterInit msg) q.2 s.stream

/-! The recharging reader, `RechargingReadHandler` in the same file.  The
`timeout` argument does not influence the pure model; each inner framed
read is recorded in a request trace `(max_len, timeout)` so that theorems
can speak about the lengths and timeouts the handler asks for. -/

/-- `TIMEOUT` and `TIMEOUT_RECHARGING` from `common/config.py`. -/
def TIMEOUT : Nat := 1

def TIMEOUT_RECHARGING : Nat := 5

/-- Outcome of a recharging read: result, successor state, and the trace of
`(max_len, timeout)` requests issued to the wrapped reader. -/
structure RechOut where
  result : Result (List Nat)
  state : RState
  calls : List (Nat × Nat)
deriving DecidableEq, Repr

/-- `RechargingReadHandler._handle_recharging`: read `FULL POWER` with the
recharging timeout (any other record is a `LogicError`), then redo the
original read. -/
def handleRecharging (maxLen timeout : Nat) (s : RState) : RechOut :=
  let fpLen := ClientCommand.clientFullPower.maxLenTotal
  let o1 := readH fpLen s
  match o1.result with
  | .err e => ⟨.err e, o1.state, [(fpLen, TIMEOUT_RECHARGING)]⟩
  | .ok data =>
      match match_none .clientFullPower data with
      | .err _ => ⟨.err .logicError, o1.state, [(fpLen, TIMEOUT_RECHARGING)]⟩
      | .ok _ =>
          let o2 := readH maxLen o1.state
          ⟨o2.result, o2.state, [(fpLen, TIMEOUT_RECHARGING), (maxLen, timeout)]⟩

/-- `RechargingReadHandler.read`: the inner read asks for
`max(max_len, CLIENT_RECHARGING.max_len_postfix)`; a RECHARGING record
starts the recharging protocol, a stray FULL POWER is a `LogicError`, and
any other record is returned truncated to the caller's `max_len`. -/
def rechargingRead (maxLen timeout : Nat) (s : RState) : RechOut :=
  let readLength := max maxLen ClientCommand.clientRecharging.maxLenTotal
  let o1 := readH readLength s
  match o1.result with
  | .err e => ⟨.err e, o1.state, [(readLength, timeout)]⟩
  | .ok data =>
      match match_none .clientRecharging data with
      | .err _ =>
          match match_none .clientFullPower data with
          | .ok _ => ⟨.err .logicError, o1.state, [(readLength, timeout)]⟩
          | .err _ => ⟨.ok (data.take maxLen), o1.state, [(readLength, timeout)]⟩
      | .ok _ =>
          let r := handleRecharging maxLen timeout o1.state
          ⟨r.result, r.state, (readLength, timeout) :: r.calls⟩

/-! The authenticator, `server/services/authenticator.py`.  The socket reads
are injected dependencies (`ReadHandler`); the authenticator's own logic is
a function of the inbound records, which the embedding therefore takes as
arguments.  The source's `self.matcher.match(...)` call sites name a method
that `CommandMatcher` does not define (see the attribute model below); the
embedding dispatches to the unique matcher operation declared for each
command's value type in `command_handlers/types.py`. -/

/-- `HASH_MODULO = 0x10000`. -/
def HASH_MODULO : Nat := 0x10000

/-- `Authenticator._calculate_hash`: `(sum(ord(c)) * 1000) % HASH_MODULO`. -/
def calculate_hash (username : List Nat) : Nat :=
  (username.sum * 1000) % HASH_MODULO

/-- `Authenticator._encode_hash`: `(name_hash + server_code) % HASH_MODULO`. -/
def encode_hash (nameHash serverCode : Nat) : Nat :=
  (nameHash + serverCode) % HASH_MODULO

/-- `Authenticator._decode_hash`: `(encoded_hash - client_code) % HASH_MODULO`,
on Python integers, whose `%` with a positive modulus is the Euclidean
remainder, as is Lean's `Int.emod`. -/
def decode_hash (encodedHash clientCode : Int) : Int :=
  (encodedHash - clientCode) % (HASH_MODULO : Int)

/-- `DefaultAuthenticator._get_username` after the read. -/
def getUsername (data : List Nat) : Result (List Nat) :=
  match_str .clientUsername data

/-- `DefaultAuthenticator._get_key_id` after the read: a
`CommandNumberFormatError` from the matcher becomes
`CommandKeyIdOutOfRangeError`; other errors pass through; an id that is no
key of `keys_dict` (the dict maps `0 .. len-1` to the table's pairs) is
`CommandKeyIdOutOfRangeError`. -/
def getKeyId (keys : List KeysPair) (data : List Nat) : Result KeysPair :=
  match match_num .clientKeyId data with
  | .err .commandNumberFormatError => .err .commandKeyIdOutOfRangeError
  | .err e => .err e
  | .ok keyPairId =>
      if ¬(0 ≤ keyPairId ∧ keyPairId < (keys.length : Int)) then
        .err .commandKeyIdOutOfRangeError
      else .ok (keys.getD keyPairId.toNat ⟨0, 0⟩)

/-- `DefaultAuthenticator._get_client_confirmation` after the read: a
`CommandNumberFormatError` becomes `CommandLoginFailError`; other errors
pass through; a decoded hash different from `name_hash` is
`CommandLoginFailError`. -/
def getClientConfirmation (nameHash clientKey : Nat) (data : List Nat) :
    Result Unit :=
  match match_num .clientConfirmation data with
  | .err .commandNumberFormatError => .err .commandLoginFailError
  | .err e => .err e
  | .ok confirmation =>
      if decode_hash confirmation (clientKey : Int) ≠ (nameHash : Int) then
        .err .commandLoginFailError
      else .ok ()

/-- Outbound messages (`ServerCommand` in `common/commands.py`); only the
identity and the confirmation number matter to the model. -/
inductive OutMsg where
  | serverKeyRequest
  | serverConfirmation (n : Nat)
  | serverOkMsg
  | serverMove
  | serverTurnLeft
  | serverTurnRight
  | serverPickUp
  | serverLogout
  | serverLoginFailedMsg
  | serverSyntaxErrMsg
  | serverLogicErrMsg
  | serverKeyOutOfRangeMsg
deriving DecidableEq, Repr

/-- `DefaultAuthenticator.authenticate` as a function of the three inbound
records, returning the outbound messages in order and the final result. -/
def authenticateF (keys : List KeysPair) (dataU dataK dataC : List Nat) :
    List OutMsg × Result Unit :=
  match getUsername dataU with
  | .err e => ([], .err e)
  | .ok username =>
      match getKeyId keys dataK with
      | .err e => ([.serverKeyRequest], .err e)
      | .ok keyPair =>
          let nameHash := calculate_hash username
          match getClientConfirmation nameHash keyPair.client_key dataC with
          | .err e =>
              ([.serverKeyRequest,
                .serverConfirmation (encode_hash nameHash keyPair.server_key)], .err e)
          | .ok _ =>
              ([.serverKeyRequest,
                .serverConfirmation (encode_hash nameHash keyPair.server_key),
                .serverOkMsg], .ok ())

/-! Python attribute lookup, for the two well-formedness claims.  A class's
callable surface is the list of method names it defines; `getattr` fails
(an `AttributeError`) exactly when the name is absent. -/

/-- Python `getattr`: the first defined attribute with the wanted name. -/
def pyGetattr (defined : List String) (attr : String) : Option String :=
  defined.find? (fun m => m = attr)

/-- The methods `CommandMatcher` defines
(`server/command_handlers/command_matcher.py`, lines 29-100). -/
def commandMatcherMethods : List String :=
  ["match_str", "match_num", "match_ok", "match_none", "_decode_data"]

/-- The method name used in the matcher call of
`DefaultAuthenticator._get_username` (authenticator.py line 110),
`_get_key_id` (line 125), `_get_client_confirmation` (line 156) and
`Mover._get_ok_response` (mover.py line 125): each is `self.matcher.match(...)`. -/
def matchCallName : String := "match"

/-- Matcher method names called by `DefaultAuthenticator` and `Mover`, in
source order of the call sites listed for `matchCallName`. -/
def serviceMatcherCalls : List String := ["match", "match", "match", "match"]

/-- Attribute names `BaseService.__init__` defines (also its `__slots__`),
`server/services/base_service.py`. -/
def baseServiceSlots : List String :=
  ["reader", "writer", "matcher", "creator", "logger"]

/-- Attribute names `DefaultSecretReceiver.receive` reads on `self`
(`server/services/secret_receiver.py`, lines 35-51), in order of first use. -/
def secretReceiverAttrRefs : List String :=
  ["_writer", "_creator", "_reader", "_logger", "_matcher"]

/-! The worker and accept loop, `server/worker.py` and `server/server.py`,
for the crash-containment claim. -/

/-- Python exceptions that can reach the worker's outer scope. -/
inductive PyExc where
  | server (e : ServerError)
  | attributeErr (attr : String)
  | otherExc
deriving DecidableEq, Repr

/-- `DefaultWorker._process_error`: the five expected kinds produce a wire
reply (or none, for a timeout); anything else is re-raised. -/
def processError (e : ServerError) : Option OutMsg × Option PyExc :=
  match e with
  | .commandSyntaxError => (some .serverSyntaxErrMsg, none)
  | .logicError => (some .serverLogicErrMsg, none)
  | .commandKeyIdOutOfRangeError => (some .serverKeyOutOfRangeMsg, none)
  | .commandLoginFailError => (some .serverLoginFailedMsg, none)
  | .serverTimeoutError => (none, none)
  | e => (none, some (.server e))

/-- What `Worker.__aexit__` does with an exception leaving the body: it
always awaits `close()` (closing the writer), logs critically with the
formatted traceback when an exception is present, and — returning `None`,
hence not suppressing — lets the exception continue out of the
`async with`. -/
def workerAexit (exc : Option PyExc) :
    Bool × Bool × Option PyExc :=
  (true, exc.isSome, exc)

/-- Observable outcome of one connection task. -/
structure SessionOut where
  writerClosed : Bool
  loggedTraceback : Bool
  escapedCallback : Option PyExc
  toAcceptLoop : Option PyExc
deriving DecidableEq, Repr

/-- `Server._run_worker` wraps the worker in `async with`;
`asyncio.start_server` schedules `_run_worker` as a task of its own, so an
exception escaping the callback is retained and logged by the event loop:
it is never re-raised into `Server.run`'s `serve_forever` (documented
asyncio behaviour; the repository adds no channel back to the accept loop). -/
def runWorkerConnection (bodyOutcome : Option PyExc) : SessionOut :=
  let a := workerAexit bodyOutcome
  { writerClosed := a.1
    loggedTraceback := a.2.1
    escapedCallback := a.2.2
    toAcceptLoop := none }

/-! The movement services, `server/services/mover.py`.  The reader, writer
and matcher pipeline is replaced by the client model of the claim: an
obstacle-free grid with a truthful robot that moves one cell per MOVE in
its current heading and turns on TURN_LEFT / TURN_RIGHT, always reporting
its position.  Loops whose termination is what is to be proved take a fuel
argument; `none` stands for exhausted fuel or for an exception escaping
(`determine_side`'s `ValueError`). -/

/-- The robot client: position and heading. -/
structure Robot where
  pos : Coords
  facing : Side
deriving DecidableEq, Repr

/-- One cell forward in a heading, matching `determine_side`'s reading of
the grid: UP increases y, RIGHT increases x, DOWN decreases y, LEFT
decreases x. -/
def stepCoords (c : Coords) (s : Side) : Coords :=
  if s = Side.UP then ⟨c.x, c.y + 1⟩
  else if s = Side.RIGHT then ⟨c.x + 1, c.y⟩
  else if s = Side.DOWN then ⟨c.x, c.y - 1⟩
  else ⟨c.x - 1, c.y⟩

/-- Client reaction to `102 MOVE` (obstacle-free: the move always succeeds). -/
def Robot.doMove (r : Robot) : Robot := { r with pos := stepCoords r.pos r.facing }

/-- Client reaction to `103 TURN LEFT`. -/
def Robot.doTurnLeft (r : Robot) : Robot := { r with facing := r.facing - 1 }

/-- Client reaction to `104 TURN RIGHT`. -/
def Robot.doTurnRight (r : Robot) : Robot := { r with facing := r.facing + 1 }

/-- `Mover._rotate_to`: no turn, one left turn when `(side - to) % 4 == 1`,
two right turns when `(side - to) % 4 == 2`, else one right turn.  Returns
the updated orientation object, the robot after obeying, and the commands
sent. -/
def rotateTo (o : Orient) (toSide : Side) (r : Robot) :
    Orient × Robot × List OutMsg :=
  if o.side = toSide then (o, r, [])
  else if o.side - toSide = (1 : Fin 4) then
    (o.turnLeftO, r.doTurnLeft, [.serverTurnLeft])
  else if o.side - toSide = (2 : Fin 4) then
    (o.turnRightO.turnRightO, r.doTurnRight.doTurnRight,
      [.serverTurnRight, .serverTurnRight])
  else (o.turnRightO, r.doTurnRight, [.serverTurnRight])

/-- Result of `Mover._get_orientation`. -/
inductive OrientOutcome where
  | arrived
  | oriented (o : Orient)
  | crashed
deriving DecidableEq, Repr

/-- `Mover._get_orientation`: move, check for (0,0), move again, on an
obstacle turn left and move once more, then `determine_side`; its
`ValueError` is the `crashed` outcome. -/
def getOrientationM (r0 : Robot) : Robot × List OutMsg × OrientOutcome :=
  let r1 := r0.doMove
  let pos := r1.pos
  if pos = (⟨0, 0⟩ : Coords) then (r1, [.serverMove], .arrived)
  else
    let r2 := r1.doMove
    if pos = r2.pos then
      let r3 := r2.doTurnLeft.doMove
      match determineSide pos r3.pos with
      | some side =>
          (r3, [.serverMove, .serverMove, .serverTurnLeft, .serverMove],
            .oriented ⟨r3.pos, side⟩)
      | none => (r3, [.serverMove, .serverMove, .serverTurnLeft, .serverMove], .crashed)
    else
      match determineSide pos r2.pos with
      | some side => (r2, [.serverMove, .serverMove], .oriented ⟨r2.pos, side⟩)
      | none => (r2, [.serverMove, .serverMove], .crashed)

/-- `Axis` from `common/data_classes.py`. -/
inductive MoveAxis where
  | X
  | Y
deriving DecidableEq, Repr

/-- The `condition()` of `DefaultMover._move_to_0`, negated: the loop runs
while the axis coordinate is non-zero. -/
def axisDone (a : MoveAxis) (c : Coords) : Bool :=
  match a with
  | .X => c.x = 0
  | .Y => c.y = 0

/-- `DefaultMover._switch_axis` (X-axis bypass): perpendicular turn, move,
turn back; the final returned coordinates answer the last turn. -/
def switchAxis (xCoord : Int) (r : Robot) : Robot × List OutMsg × Coords :=
  if xCoord < 0 then
    let r3 := r.doTurnRight.doMove.doTurnLeft
    (r3, [.serverTurnRight, .serverMove, .serverTurnLeft], r3.pos)
  else
    let r3 := r.doTurnLeft.doMove.doTurnRight
    (r3, [.serverTurnLeft, .serverMove, .serverTurnRight], r3.pos)

/-- `DefaultMover._bypass_obstacle` (Y-axis bypass): right, move, left,
move, move, left, move, right. -/
def bypassObstacle (r : Robot) : Robot × List OutMsg × Coords :=
  let r' := r.doTurnRight.doMove.doTurnLeft.doMove.doMove.doTurnLeft.doMove.doTurnRight
  (r',
    [.serverTurnRight, .serverMove, .serverTurnLeft, .serverMove, .serverMove,
      .serverTurnLeft, .serverMove, .serverTurnRight], r'.pos)

/-- The `while condition()` loop of `DefaultMover._move_to_0`; `xBound` is
the x coordinate bound into the bypasser by `partial` at loop set-up. -/
def moveLoop (axis : MoveAxis) (xBound : Int) :
    Nat → Orient → Robot → Option (Orient × Robot × List OutMsg)
  | fuel, o, r =>
    if axisDone axis o.coords then some (o, r, [])
    else
      match fuel with
      | 0 => none
      | fuel + 1 =>
          let r' := r.doMove
          let newPos := r'.pos
          if newPos = o.coords then
            let b := match axis with
              | .X => switchAxis xBound r'
              | .Y => bypassObstacle r'
            match moveLoop axis xBound fuel { o with coords := b.2.2 } b.1 with
            | none => none
            | some (o', r'', cmds) => some (o', r'', .serverMove :: b.2.1 ++ cmds)
          else
            match moveLoop axis xBound fuel { o with coords := newPos } r' with
            | none => none
            | some (o', r'', cmds) => some (o', r'', .serverMove :: cmds)

/-- `DefaultMover._move_to_0`: choose the target heading from the sign of
the axis coordinate, rotate to it, then run the move loop. -/
def moveTo0 (axis : MoveAxis) (fuel : Nat) (o : Orient) (r : Robot) :
    Option (Orient × Robot × List OutMsg) :=
  let moveSide := match axis with
    | .X => if o.coords.x > 0 then Side.LEFT else Side.RIGHT
    | .Y => if o.coords.y > 0 then Side.DOWN else Side.UP
  let rot := rotateTo o moveSide r
  match moveLoop axis o.coords.x fuel rot.1 rot.2.1 with
  | none => none
  | some (o', r', cmds) => some (o', r', rot.2.2 ++ cmds)

/-- `DefaultMover.move_to_start` against the obstacle-free truthful client. -/
def defaultMoverRun (fuelX fuelY : Nat) (r0 : Robot) :
    Option (Result Unit × Robot × List OutMsg) :=
  match getOrientationM r0 with
  | (r1, cmds, .arrived) => some (.ok (), r1, cmds)
  | (_, _, .crashed) => none
  | (r1, cmds, .oriented o) =>
      match moveTo0 .X fuelX o r1 with
      | none => none
      | some (o2, r2, c2) =>
          match moveTo0 .Y fuelY o2 r2 with
          | none => none
          | some (_, r3, c3) => some (.ok (), r3, cmds ++ c2 ++ c3)

/-! `BFSMover`, same file. -/

/-- The fixed neighbour order of `BFSMover._bfs`. -/
def neighboursOf (c : Coords) : List Coords :=
  [⟨c.x - 1, c.y⟩, ⟨c.x + 1, c.y⟩, ⟨c.x, c.y - 1⟩, ⟨c.x, c.y + 1⟩]

/-- The `backtrack` dict as an association list; a later assignment
shadows an earlier one, so insertion is at the head and lookup takes the
first hit. -/
def parLookup (par : List (Coords × Coords)) (c : Coords) : Option Coords :=
  (par.find? (fun p => p.1 = c)).map Prod.snd

/-- State of `BFSMover._bfs`'s loop. -/
structure BfsState where
  queue : List Coords
  visited : List Coords
  par : List (Coords × Coords)
deriving DecidableEq, Repr

/-- Outcome of one iteration of the `while queue` loop of `_bfs`. -/
inductive BfsStepOut where
  | found (s : BfsState)
  | emptied (s : BfsState)
  | next (s : BfsState)
deriving DecidableEq, Repr

/-- One iteration of `_bfs`: pop; break on the goal (0,0); skip visited and
obstacle cells; otherwise mark visited and enqueue the unvisited
neighbours, recording their backtrack parent. -/
def bfsIter (obstacles : List Coords) (s : BfsState) : BfsStepOut :=
  match s.queue with
  | [] => .emptied s
  | current :: rest =>
      if current = (⟨0, 0⟩ : Coords) then .found { s with queue := rest }
      else if current ∈ s.visited ∨ current ∈ obstacles then .next { s with queue := rest }
      else
        let visited' := s.visited ++ [current]
        let newNs := (neighboursOf current).filter (fun n => n ∉ visited')
        .next
          { queue := rest ++ newNs
            visited := visited'
            par := newNs.map (fun n => (n, current)) ++ s.par }

/-- The `while queue` loop of `_bfs` with fuel: `some (true, s)` when the
goal was dequeued, `some (false, s)` when the queue emptied, `none` when
the fuel ran out before either. -/
def bfsRun (obstacles : List Coords) : Nat → BfsState → Option (Bool × BfsState)
  | 0, _ => none
  | fuel + 1, s =>
      match bfsIter obstacles s with
      | .found s' => some (true, s')
      | .emptied s' => some (false, s')
      | .next s' => bfsRun obstacles fuel s'

/-- The path-reconstruction loop of `_bfs` (`while path[-1] != start`),
from the current list tail `c` down to `start`; `none` models both a
`KeyError` on a missing backtrack entry and exhausted fuel.  The result
lists the goal first, as the source builds it before `path.reverse()`. -/
def reconstructFrom (par : List (Coords × Coords)) (start : Coords) :
    Nat → Coords → Option (List Coords)
  | 0, _ => none
  | fuel + 1, c =>
      if c = start then some [c]
      else
        match parLookup par c with
        | none => none
        | some p => (reconstructFrom par start fuel p).map (fun rest => c :: rest)

/-- `BFSMover._bfs(start, obstacles)`: run the search, reconstruct, reverse. -/
def bfsF (start : Coords) (obstacles : List Coords) (fuel rfuel : Nat) :
    Option (List Coords) :=
  match bfsRun obstacles fuel ⟨[start], [], []⟩ with
  | some (_, s) => (reconstructFrom s.par start rfuel ⟨0, 0⟩).map List.reverse
  | none => none

/-- The `while path_queue` loop of `BFSMover._move_to_center`: pop the next
cell, rotate towards it (`determine_side` failure is `none`), move; on an
obstacle add the cell to the obstacle set and re-plan, else advance. -/
def walkLoop (bfsFuel rfuel : Nat) :
    Nat → List Coords → List Coords → Orient → Robot →
    Option (Orient × Robot × List OutMsg)
  | 0, _, _, _, _ => none
  | fuel + 1, obstacles, pathQueue, o, r =>
      match pathQueue with
      | [] => some (o, r, [])
      | next :: restPath =>
          if o.coords = (⟨0, 0⟩ : Coords) then some (o, r, [])
          else
            match determineSide o.coords next with
            | none => none
            | some neededSide =>
                let rot := rotateTo o neededSide r
                let r' := rot.2.1.doMove
                let newCoords := r'.pos
                if rot.1.coords = newCoords then
                  let obstacles' := obstacles ++ [next]
                  match bfsF rot.1.coords obstacles' bfsFuel rfuel with
                  | none => none
                  | some [] => none
                  | some (_ :: restPath') =>
                      match walkLoop bfsFuel rfuel fuel obstacles' restPath' rot.1 r' with
                      | none => none
                      | some (o', r'', cmds) =>
                          some (o', r'', rot.2.2 ++ [.serverMove] ++ cmds)
                else
                  match walkLoop bfsFuel rfuel fuel obstacles restPath
                      { rot.1 with coords := newCoords } r' with
                  | none => none
                  | some (o', r'', cmds) =>
                      some (o', r'', rot.2.2 ++ [.serverMove] ++ cmds)

/-- `BFSMover._move_to_center`: plan once from the current coordinates with
no known obstacles, drop the current cell from the path, then walk it. -/
def moveToCenter (bfsFuel rfuel walkFuel : Nat) (o : Orient) (r : Robot) :
    Option (Orient × Robot × List OutMsg) :=
  if o.coords = (⟨0, 0⟩ : Coords) then some (o, r, [])
  else
    match bfsF o.coords [] bfsFuel rfuel with
    | none => none
    | some [] => none
    | some (_ :: restPath) => walkLoop bfsFuel rfuel walkFuel [] restPath o r

/-- `BFSMover.move_to_start` against the obstacle-free truthful client. -/
def bfsMoverRun (bfsFuel rfuel walkFuel : Nat) (r0 : Robot) :
    Option (Result Unit × Robot × List OutMsg) :=
  match getOrientationM r0 with
  | (r1, cmds, .arrived) => some (.ok (), r1, cmds)
  | (_, _, .crashed) => none
  | (r1, cmds, .oriented o) =>
      match moveToCenter bfsFuel rfuel walkFuel o r1 with
      | none => none
      | some (_, r2, c2) => some (.ok (), r2, cmds ++ c2)

/-! Predicates used by the statements about the movers. -/

/-- Manhattan distance on the grid. -/
def mdist (a b : Coords) : Nat := (a.x - b.x).natAbs + (a.y - b.y).natAbs

/-- A list of cells each of which neighbours its predecessor, starting
from `c`. -/
def Chain : Coords → List Coords → Prop
  | _, [] => True
  | c, n :: rest => n ∈ neighboursOf c ∧ Chain n rest

/-- Last cell of the walk `c :: l`. -/
def lastOf (c : Coords) (l : List Coords) : Coords := (c :: l).getLast (by simp)

/-- A cell is either already visited or still pending in the queue. -/
def Reached (s : BfsState) (c : Coords) : Prop := c ∈ s.visited ∨ c ∈ s.queue

/-- The invariants of `_bfs`'s loop state that the correctness argument
maintains (for the obstacle-free runs, with goal (0,0) distinct from
`start`). -/
structure BfsInv (start : Coords) (s : BfsState) : Prop where
  qOk : ∀ c ∈ s.queue, c = start ∨ (parLookup s.par c).isSome
  visOk : ∀ c ∈ s.visited, c = start ∨ (parLookup s.par c).isSome
  parAdj : ∀ c p, parLookup s.par c = some p → c ∈ neighboursOf p
  parVis : ∀ c p, parLookup s.par c = some p → p ∈ s.visited
  parIdx : ∀ c p, parLookup s.par c = some p → c ∈ s.visited →
    s.visited.indexOf p < s.visited.indexOf c
  goalNotVis : (⟨0, 0⟩ : Coords) ∉ s.visited
  nbrOk : ∀ c ∈ s.visited, ∀ n ∈ neighboursOf c, Reached s n

/-- Reflexive-transitive chain of non-final `_bfs` iterations on the
obstacle-free grid. -/
inductive BfsSteps : BfsState → BfsState → Prop where
  | refl (s : BfsState) : BfsSteps s s
  | tail {s s' s'' : BfsState} :
      BfsSteps s s' → bfsIter [] s' = .next s'' → BfsSteps s s''

/-- The obstacle-free search eventually dequeues the goal. -/
def FindsGoal (s : BfsState) : Prop :=
  ∃ s' s'', BfsSteps s s' ∧ bfsIter [] s' = .found s''

/-! Theorems. -/

/-- Claim C1: the claim asserts that every matcher call of the
Authenticator and the Mover resolves to an operation defined on the
`CommandMatcher` interface.  In the source all four call sites invoke
`self.matcher.match(...)`, and `match` is not among the attributes
`CommandMatcher` defines, so Python attribute lookup fails and each call
raises `AttributeError` instead of evaluating to a `ServerResult`. -/
theorem matcher_match_is_undefined :
    pyGetattr commandMatcherMethods matchCallName = none
      ∧ serviceMatcherCalls.all
          (fun n => (pyGetattr commandMatcherMethods n).isNone) = true
      ∧ matchCallName ∈ serviceMatcherCalls := by
  decide

/-- Claim C2: the claim asserts `len(m) ≤ L` for every `Ok(m)`, including
records served entirely from the leftover queue.  A `read(5)` whose
leftover queue holds the six-byte record `b"1234\x07\x08"` returns that
record whole: the queue path checks the sentinel but never the length. -/
theorem read_from_queue_exceeds_cap :
    (readH 5 ⟨[[49, 50, 51, 52, 7, 8]], []⟩).result = .ok [49, 50, 51, 52, 7, 8]
      ∧ ([49, 50, 51, 52, 7, 8] : List Nat).length = 6
      ∧ ¬ ([49, 50, 51, 52, 7, 8] : List Nat).length ≤ 5
      ∧ sentinelB.isSuffixOf [49, 50, 51, 52, 7, 8] = true := by
  decide

/-- Claim C3: the claim asserts chunk-size invariance of the record
sequence.  For the byte stream `b"Mnauuuu\x07\x081234\x07\x08"` read as a
20-byte username record followed by a 5-byte key-id record, delivery in
chunks of 8-then-7 bytes yields `Ok b"1234\x07\x08"` on the second read
(served oversize from the leftover queue), while byte-by-byte delivery
yields a `SyntaxError` on the second read: the sequences differ. -/
theorem chunking_changes_read_results :
    (readH 20 ⟨[], [[77, 110, 97, 117, 117, 117, 117, 7], [8, 49, 50, 51, 52, 7, 8]]⟩).result
        = (readH 20 ⟨[], ([77, 110, 97, 117, 117, 117, 117, 7, 8, 49, 50, 51, 52, 7, 8].map
            (fun b => [b]))⟩).result
      ∧ (readH 5 (readH 20
            ⟨[], [[77, 110, 97, 117, 117, 117, 117, 7], [8, 49, 50, 51, 52, 7, 8]]⟩).state).result
          = .ok [49, 50, 51, 52, 7, 8]
      ∧ (readH 5 (readH 20 ⟨[], ([77, 110, 97, 117, 117, 117, 117, 7, 8, 49, 50, 51, 52, 7, 8].map
            (fun b => [b]))⟩).state).result
          = .err .commandSyntaxError := by
  decide

/-- Claim C7: the claim asserts the secret receiver sends PICK_UP, reads
MESSAGE, sends LOGOUT and returns the payload.  `DefaultSecretReceiver.receive`
reads `self._writer`, `self._creator`, `self._reader`, `self._logger` and
`self._matcher`, none of which `BaseService` (its only initializer) defines
— it defines the names without the leading underscore — so the very first
statement of `receive` raises `AttributeError`. -/
theorem secret_receiver_attributes_undefined :
    secretReceiverAttrRefs.all
        (fun a => (pyGetattr baseServiceSlots a).isNone) = true
      ∧ secretReceiverAttrRefs ≠ [] := by
  decide

/-- Claim C10: for every exception escaping the worker's body, the
`async with` exit always closes the writer and, when an exception is
present, logs it critically with the formatted traceback; `__aexit__`
returns `None` so the exception continues out of the block, but the
connection callback runs as its own task, from which nothing is re-raised
into the accept loop. -/
theorem worker_crash_contained (e : PyExc) :
    (runWorkerConnection (some e)).writerClosed = true
      ∧ (runWorkerConnection (some e)).loggedTraceback = true
      ∧ (runWorkerConnection (some e)).escapedCallback = some e
      ∧ (runWorkerConnection (some e)).toAcceptLoop = none :=
  ⟨rfl, rfl, rfl, rfl⟩

/-- Claim C8 (counterexample): the claimed invariant
`decode(encode(name_hash(u), k_s), k_c) = name_hash(u)` fails already for
the username "A" with the table's first pair `(23019, 32037)`: encoding
uses the server key but decoding subtracts the distinct client key. -/
theorem decode_encode_cross_key_fails :
    decode_hash (encode_hash (calculate_hash [65]) 23019) 32037
        ≠ (calculate_hash [65] : Int)
      ∧ (⟨23019, 32037⟩ : KeysPair) ∈ KEYS
      ∧ 1 ≤ ([65] : List Nat).length ∧ ([65] : List Nat).length ≤ 18 := by
  decide

/-- Claim C8 (amended): the mod-65536 encode/decode round-trip holds when
decoding uses the same key that encoded — as the protocol does, the server
decoding the client's confirmation with the client key — for every
username of allowed length and both keys of every table pair. -/
theorem decode_encode_same_key_roundtrip (u : List Nat)
    (hu : 1 ≤ u.length ∧ u.length ≤ 18) (kp : KeysPair) (hkp : kp ∈ KEYS) :
    decode_hash (encode_hash (calculate_hash u) kp.client_key) kp.client_key
        = (calculate_hash u : Int)
      ∧ decode_hash (encode_hash (calculate_hash u) kp.server_key) kp.server_key
        = (calculate_hash u : Int) := by
  have h1 : calculate_hash u < 65536 := Nat.mod_lt _ (by norm_num [HASH_MODULO])
  simp only [decode_hash, encode_hash, HASH_MODULO]
  constructor <;> (push_cast; omega)

/-- Claim C8 (witness for the amended theorem): instantiation at the
username "A" and the first table pair. -/
theorem decode_encode_same_key_roundtrip_witness :
    (1 ≤ ([65] : List Nat).length ∧ ([65] : List Nat).length ≤ 18)
      ∧ (⟨23019, 32037⟩ : KeysPair) ∈ KEYS
      ∧ decode_hash (encode_hash (calculate_hash [65]) 32037) 32037
          = (calculate_hash [65] : Int) :=
  ⟨by decide, by decide,
    (decode_encode_same_key_roundtrip [65] (by decide) ⟨23019, 32037⟩ (by decide)).1⟩

/-- Claim C5: in `_get_key_id` a numeric-format error from the matcher is
remapped to `CommandKeyIdOutOfRangeError`, an id absent from the key table
is `CommandKeyIdOutOfRangeError`; in `_get_client_confirmation` a
numeric-format error is remapped to `CommandLoginFailError`;
`CommandNumberFormatError` is never returned by either step, and a
`CommandSyntaxError` from the matcher passes through unchanged. -/
theorem key_and_confirmation_error_mapping (dataK dataC : List Nat)
    (nameHash clientKey : Nat) :
    getKeyId KEYS dataK ≠ .err .commandNumberFormatError
      ∧ getClientConfirmation nameHash clientKey dataC ≠ .err .commandNumberFormatError
      ∧ (match_num .clientKeyId dataK = .err .commandNumberFormatError →
          getKeyId KEYS dataK = .err .commandKeyIdOutOfRangeError)
      ∧ (∀ i, match_num .clientKeyId dataK = .ok i →
          ¬ (0 ≤ i ∧ i < (KEYS.length : Int)) →
          getKeyId KEYS dataK = .err .commandKeyIdOutOfRangeError)
      ∧ (match_num .clientConfirmation dataC = .err .commandNumberFormatError →
          getClientConfirmation nameHash clientKey dataC = .err .commandLoginFailError)
      ∧ (match_num .clientKeyId dataK = .err .commandSyntaxError →
          getKeyId KEYS dataK = .err .commandSyntaxError)
      ∧ (match_num .clientConfirmation dataC = .err .commandSyntaxError →
          getClientConfirmation nameHash clientKey dataC = .err .commandSyntaxError) := by
  refine ⟨?_, ?_, ?_, ?_, ?_, ?_, ?_⟩
  · unfold getKeyId
    rcases hK : match_num .clientKeyId dataK with i | eK
    · by_cases hr : 0 ≤ i ∧ i < (KEYS.length : Int)
      · simp [hr]
      · simp [hr]
    · cases eK <;> simp
  · unfold getClientConfirmation
    rcases hC : match_num .clientConfirmation dataC with j | eC
    · by_cases hd : decode_hash j (clientKey : Int) = (nameHash : Int)
      · simp [hd]
      · simp [hd]
    · cases eC <;> simp
  · intro h
    unfold getKeyId
    rw [h]
  · intro i hi hrange
    unfold getKeyId
    rw [hi]
    simp only [hrange, not_false_eq_true, if_pos]
  · intro h
    unfold getClientConfirmation
    rw [h]
  · intro h
    unfold getKeyId
    rw [h]
  · intro h
    unfold getClientConfirmation
    rw [h]

/-- Claim C5 (witness): a negative key id is numeric-format and surfaces
as `KeyOutOfRange`; an in-range but untabled id surfaces as
`KeyOutOfRange`; an oversized confirmation value surfaces as `LoginFail`. -/
theorem key_and_confirmation_error_mapping_witness :
    getKeyId KEYS [45, 49, 7, 8] = .err .commandKeyIdOutOfRangeError
      ∧ getKeyId KEYS [55, 7, 8] = .err .commandKeyIdOutOfRangeError
      ∧ getClientConfirmation 0 0 [55, 48, 48, 48, 48, 7, 8]
          = .err .commandLoginFailError := by
  refine ⟨?_, ?_, ?_⟩
  · exact (key_and_confirmation_error_mapping [45, 49, 7, 8] [] 0 0).2.2.1 (by decide)
  · exact (key_and_confirmation_error_mapping [55, 7, 8] [] 0 0).2.2.2.1 7
      (by decide) (by decide)
  · exact (key_and_confirmation_error_mapping [] [55, 48, 48, 48, 48, 7, 8] 0 0).2.2.2.2.1
      (by decide)

/-- Claim C4: for a username accepted by the USERNAME step (hence of
length 1..18) and a key pair obtained from the table by the KEY_ID step,
the authenticator sends `(name_hash + server_key) mod 65536` with
`name_hash = (Σ ord) * 1000 mod 65536`, and a CONFIRMATION value `c`
accepted by the matcher is accepted — authentication succeeds and `200 OK`
is sent — exactly when `(c - client_key) mod 65536 = name_hash`, a
mismatch failing with `LoginFail`.  (The source reaches this logic through
the undefined `matcher.match` dispatch recorded under claim C1; the
embedding dispatches to the typed matcher operations.) -/
theorem authentication_confirmation_protocol
    (dataU dataK dataC u : List Nat) (kp : KeysPair) (c : Int)
    (hU : getUsername dataU = .ok u)
    (hK : getKeyId KEYS dataK = .ok kp)
    (hC : match_num .clientConfirmation dataC = .ok c) :
    (1 ≤ u.length ∧ u.length ≤ 18)
      ∧ calculate_hash u = (u.sum * 1000) % 65536
      ∧ (authenticateF KEYS dataU dataK dataC).1.take 2
          = [.serverKeyRequest,
             .serverConfirmation ((calculate_hash u + kp.server_key) % 65536)]
      ∧ ((authenticateF KEYS dataU dataK dataC).2 = .ok ()
          ↔ (c - (kp.client_key : Int)) % 65536 = (calculate_hash u : Int))
      ∧ ((c - (kp.client_key : Int)) % 65536 ≠ (calculate_hash u : Int) →
          (authenticateF KEYS dataU dataK dataC).2 = .err .commandLoginFailError)
      ∧ ((authenticateF KEYS dataU dataK dataC).2 = .ok () →
          .serverOkMsg ∈ (authenticateF KEYS dataU dataK dataC).1) := by
  have hlen : 1 ≤ u.length ∧ u.length ≤ 18 := by
    unfold getUsername match_str at hU
    rcases hD : decodeData dataU with d | e
    · rw [hD] at hU
      by_cases hcond : 0 < d.length ∧ d.length ≤ ClientCommand.clientUsername.maxLen
      · simp [hcond] at hU
        subst hU
        exact ⟨hcond.1, by simpa [ClientCommand.maxLen] using hcond.2⟩
      · simp [hcond] at hU
    · rw [hD] at hU
      simp at hU
  refine ⟨hlen, rfl, ?_⟩
  have hmod : decode_hash c (kp.client_key : Int)
      = (c - (kp.client_key : Int)) % 65536 := by
    simp [decode_hash, HASH_MODULO]
  by_cases hd : decode_hash c (kp.client_key : Int) = (calculate_hash u : Int)
  · have hG : getClientConfirmation (calculate_hash u) kp.client_key dataC = .ok () := by
      unfold getClientConfirmation
      rw [hC]
      simp [hd]
    have hA : authenticateF KEYS dataU dataK dataC
        = ([.serverKeyRequest,
            .serverConfirmation (encode_hash (calculate_hash u) kp.server_key),
            .serverOkMsg], .ok ()) := by
      simp only [authenticateF, hU, hK, hG]
    rw [hA]
    refine ⟨by simp [encode_hash, HASH_MODULO], ?_, ?_, by intro _; simp⟩
    · exact iff_of_true rfl (hmod ▸ hd)
    · intro hne
      exact absurd (hmod ▸ hd) hne
  · have hG : getClientConfirmation (calculate_hash u) kp.client_key dataC
        = .err .commandLoginFailError := by
      unfold getClientConfirmation
      rw [hC]
      simp [hd]
    have hA : authenticateF KEYS dataU dataK dataC
        = ([.serverKeyRequest,
            .serverConfirmation (encode_hash (calculate_hash u) kp.server_key)],
           .err .commandLoginFailError) := by
      simp only [authenticateF, hU, hK, hG]
    rw [hA]
    refine ⟨by simp [encode_hash, HASH_MODULO], ?_, by intro _; rfl, by intro h; cases h⟩
    exact iff_of_false (by simp) (fun h => hd (hmod ▸ h))

/-- Claim C4 (witness): username "A", key id 0 (pair (23019, 32037)), and
the matching confirmation value 31501 = (65000 + 32037) mod 65536, on
which authentication succeeds. -/
theorem authentication_confirmation_protocol_witness :
    (authenticateF KEYS [65, 7, 8] [48, 7, 8] [51, 49, 53, 48, 49, 7, 8]).2 = .ok () :=
  (authentication_confirmation_protocol [65, 7, 8] [48, 7, 8]
      [51, 49, 53, 48, 49, 7, 8] [65] ⟨23019, 32037⟩ 31501
      (by decide) (by decide) (by decide)).2.2.2.1.mpr (by decide)

/-- Claim C6: the recharging reader asks the wrapped reader for
`max(max_len, len("RECHARGING") + 2)` bytes; a first record equal to
FULL POWER without a prior RECHARGING fails with `LogicError`; after a
RECHARGING record the next framed read is requested with the 5 s
recharging timeout and, if it yields a record other than FULL POWER, the
read fails with `LogicError`; any other first record is returned truncated
to the caller's `max_len`. -/
theorem recharging_reader_behaviour :
    (∀ maxLen timeout s d,
        (readH (max maxLen ClientCommand.clientRecharging.maxLenTotal) s).result = .ok d →
        match_none .clientFullPower d = .ok () →
        (rechargingRead maxLen timeout s).result = .err .logicError)
      ∧ (∀ maxLen timeout s d,
          (readH (max maxLen ClientCommand.clientRecharging.maxLenTotal) s).result = .ok d →
          match_none .clientRecharging d = .ok () →
          (rechargingRead maxLen timeout s).calls.take 2
              = [(max maxLen ClientCommand.clientRecharging.maxLenTotal, timeout),
                 (ClientCommand.clientFullPower.maxLenTotal, TIMEOUT_RECHARGING)]
            ∧ (∀ d2 e2,
                (readH ClientCommand.clientFullPower.maxLenTotal
                    (readH (max maxLen ClientCommand.clientRecharging.maxLenTotal) s).state).result
                  = .ok d2 →
                match_none .clientFullPower d2 = .err e2 →
                (rechargingRead maxLen timeout s).result = .err .logicError))
      ∧ (∀ maxLen timeout s d eR eF,
          (readH (max maxLen ClientCommand.clientRecharging.maxLenTotal) s).result = .ok d →
          match_none .clientRecharging d = .err eR →
          match_none .clientFullPower d = .err eF →
          (rechargingRead maxLen timeout s).result = .ok (d.take maxLen)
            ∧ (rechargingRead maxLen timeout s).calls
                = [(max maxLen ClientCommand.clientRecharging.maxLenTotal, timeout)]) := by
  have hRF : ∀ d, match_none .clientFullPower d = .ok () →
      ∀ u, match_none .clientRecharging d ≠ .ok u := by
    intro d hF u hR
    unfold match_none at hF hR
    rcases hD : decodeData d with dec | e
    · rw [hD] at hF hR
      by_cases h1 : dec = ClientCommand.clientFullPower.cmdText
      · by_cases h2 : dec = ClientCommand.clientRecharging.cmdText
        · rw [h1] at h2
          exact absurd h2 (by decide)
        · simp [h2] at hR
      · simp [h1] at hF
    · rw [hD] at hF
      cases hF
  refine ⟨?_, ?_, ?_⟩
  · intro maxLen timeout s d h1 hF
    rcases hR : match_none .clientRecharging d with u | eR
    · exact absurd hR (hRF d hF u)
    · simp only [rechargingRead, h1, hR, hF]
  · intro maxLen timeout s d h1 hR
    simp only [rechargingRead, handleRecharging, h1, hR]
    rcases h2 : (readH ClientCommand.clientFullPower.maxLenTotal
        (readH (max maxLen ClientCommand.clientRecharging.maxLenTotal) s).state).result
        with d2 | e2
    · simp only [h2]
      rcases hF2 : match_none .clientFullPower d2 with u2 | e2'
      · cases u2
        simp only [hF2]
        refine ⟨by simp, ?_⟩
        intro d2' e2' h2' hF2'
        injection h2' with h
        subst h
        simp [hF2] at hF2'
      · simp only [hF2]
        refine ⟨by simp, ?_⟩
        intro d2' e2'' h2' hF2'
        trivial
    · simp only [h2]
      refine ⟨by simp, ?_⟩
      intro d2' e2' h2' hF2'
      cases h2'
  · intro maxLen timeout s d eR eF h1 hR hF
    simp only [rechargingRead, h1, hR, hF]
    exact ⟨by simp, by simp⟩

/-- Claim C6 (witness): instantiations of all three branches: a stray
FULL POWER is a `LogicError`; after RECHARGING the reader asks for 12
bytes with the 5 s timeout and a non-FULL-POWER record is a `LogicError`;
an `OK 1 2` record under `max_len = 5` comes back truncated to 5 bytes. -/
theorem recharging_reader_behaviour_witness :
    (rechargingRead 10 1 ⟨[], [[70, 85, 76, 76, 32, 80, 79, 87], [69, 82, 7, 8]]⟩).result
        = .err .logicError
      ∧ (rechargingRead 10 1 ⟨[], [[82, 69, 67, 72, 65, 82, 71, 73], [78, 71, 7, 8],
          [88, 7, 8]]⟩).result = .err .logicError
      ∧ (rechargingRead 5 1 ⟨[], [[79, 75, 32, 49, 32, 50, 7, 8]]⟩).result
        = .ok [79, 75, 32, 49, 32] := by
  refine ⟨?_, ?_, ?_⟩
  · exact recharging_reader_behaviour.1 10 1 ⟨[], [[70, 85, 76, 76, 32, 80, 79, 87],
      [69, 82, 7, 8]]⟩ [70, 85, 76, 76, 32, 80, 79, 87, 69, 82, 7, 8] (by decide) (by decide)
  · exact (recharging_reader_behaviour.2.1 10 1 ⟨[], [[82, 69, 67, 72, 65, 82, 71, 73],
      [78, 71, 7, 8], [88, 7, 8]]⟩ [82, 69, 67, 72, 65, 82, 71, 73, 78, 71, 7, 8]
      (by decide) (by decide)).2 [88, 7, 8] .commandSyntaxError (by decide) (by decide)
  · exact ((recharging_reader_behaviour.2.2 5 1 ⟨[], [[79, 75, 32, 49, 32, 50, 7, 8]]⟩
      [79, 75, 32, 49, 32, 50, 7, 8] .commandSyntaxError .commandSyntaxError
      (by decide) (by decide) (by decide)).1)

/-! Lemmas towards claim C9 (both planners reach the origin on an
obstacle-free grid). -/

/-- Closed form of `determine_side` as nested ifs on the coordinates. -/
theorem determineSide_eq (o n : Coords) :
    determineSide o n =
      if o.x = n.x then
        if o.y = n.y then none
        else some (if n.y > o.y then Side.UP else Side.DOWN)
      else if o.y = n.y then some (if n.x > o.x then Side.RIGHT else Side.LEFT)
      else none := by
  unfold determineSide
  by_cases h1 : o.x = n.x <;> by_cases h2 : o.y = n.y <;> simp [h1, h2]

/-- A forward step moves to a different cell. -/
theorem stepCoords_ne (c : Coords) (s : Side) : stepCoords c s ≠ c := by
  obtain ⟨cx, cy⟩ := c
  fin_cases s <;>
    (simp [stepCoords, Side.UP, Side.RIGHT, Side.DOWN, Side.LEFT, Coords.mk.injEq]
     <;> omega)

/-- `determine_side` recovers the heading of a single forward step. -/
theorem determineSide_step (c : Coords) (s : Side) :
    determineSide c (stepCoords c s) = some s := by
  obtain ⟨cx, cy⟩ := c
  fin_cases s <;>
    (simp +decide only [determineSide_eq, stepCoords, Side.UP, Side.RIGHT, Side.DOWN,
        Side.LEFT]
     <;> split_ifs <;> first | rfl | omega | (simp_all <;> omega))

/-- Every neighbour is one forward step away, in the direction
`determine_side` computes. -/
theorem neighboursOf_step (c n : Coords) (h : n ∈ neighboursOf c) :
    ∃ s, determineSide c n = some s ∧ stepCoords c s = n := by
  obtain ⟨cx, cy⟩ := c
  simp only [neighboursOf, List.mem_cons, List.not_mem_nil, or_false] at h
  rcases h with h | h | h | h <;> subst h
  · refine ⟨Side.LEFT, ?_, ?_⟩
    · simp only [determineSide_eq]
      split_ifs <;> first | rfl | omega | (simp_all <;> omega)
    · simp [stepCoords, Side.LEFT, Side.UP, Side.RIGHT, Side.DOWN]
  · refine ⟨Side.RIGHT, ?_, ?_⟩
    · simp only [determineSide_eq]
      split_ifs <;> first | rfl | omega | (simp_all <;> omega)
    · simp [stepCoords, Side.LEFT, Side.UP, Side.RIGHT, Side.DOWN]
  · refine ⟨Side.DOWN, ?_, ?_⟩
    · simp only [determineSide_eq]
      split_ifs <;> first | rfl | omega | (simp_all <;> omega)
    · simp [stepCoords, Side.LEFT, Side.UP, Side.RIGHT, Side.DOWN]
  · refine ⟨Side.UP, ?_, ?_⟩
    · simp only [determineSide_eq]
      split_ifs <;> first | rfl | omega | (simp_all <;> omega)
    · simp [stepCoords, Side.LEFT, Side.UP, Side.RIGHT, Side.DOWN]

/-- `_rotate_to` turns the orientation object to the requested side and the
obeying robot's heading with it, leaving positions unchanged. -/
theorem rotateTo_spec (o : Orient) (t : Side) (r : Robot)
    (h1 : r.pos = o.coords) (h2 : r.facing = o.side) :
    (rotateTo o t r).1.side = t ∧ (rotateTo o t r).1.coords = o.coords
      ∧ (rotateTo o t r).2.1.pos = o.coords ∧ (rotateTo o t r).2.1.facing = t := by
  have hr : r = (⟨o.coords, o.side⟩ : Robot) := by
    rw [← h1, ← h2]
  subst hr
  obtain ⟨oc, os⟩ := o
  fin_cases os <;> fin_cases t <;>
    simp +decide [rotateTo, Orient.turnLeftO, Orient.turnRightO, Robot.doTurnLeft,
      Robot.doTurnRight]

/-- Facing LEFT with `x = n ≥ 0`, the move loop reaches `x = 0` in `n`
iterations, never meeting an obstacle on the obstacle-free grid. -/
theorem moveLoop_X_pos (xB : Int) : ∀ (n : Nat) (y : Int) (o : Orient) (r : Robot),
    r.pos = o.coords → r.facing = o.side → o.side = Side.LEFT →
    o.coords = ⟨(n : Int), y⟩ →
    ∃ o' r' cmds, moveLoop .X xB n o r = some (o', r', cmds)
      ∧ o'.coords = ⟨0, y⟩ ∧ o'.side = o.side
      ∧ r'.pos = (⟨0, y⟩ : Coords) ∧ r'.facing = o.side := by
  intro n
  induction n with
  | zero =>
      intro y o r h1 h2 h3 h4
      have hdone : axisDone .X o.coords = true := by
        simp [axisDone, h4]
      refine ⟨o, r, [], ?_, ?_, rfl, ?_, ?_⟩
      · rw [moveLoop]
        simp [hdone]
      · simpa using h4
      · rw [h1, h4]
        simp
      · exact h2
  | succ n ih =>
      intro y o r h1 h2 h3 h4
      have hndone : axisDone .X o.coords = false := by
        simp [axisDone, h4]
        omega
      have hstep : (r.doMove).pos = (⟨(n : Int), y⟩ : Coords) := by
        simp only [Robot.doMove, h1, h2, h3]
        simp +decide [stepCoords, Side.LEFT, h4, Coords.mk.injEq] <;> omega
      have hfac : (r.doMove).facing = o.side := by
        simp [Robot.doMove, h2]
      have hne : ¬ ((⟨(n : Int), y⟩ : Coords) = o.coords) := by
        rw [h4]
        simp [Coords.mk.injEq] <;> omega
      obtain ⟨o', r', cmds, hEq, ho1, ho2, hr1, hr2⟩ :=
        ih y { o with coords := (⟨(n : Int), y⟩ : Coords) } r.doMove hstep hfac h3 rfl
      refine ⟨o', r', .serverMove :: cmds, ?_, ho1, ho2, hr1, hr2⟩
      rw [moveLoop]
      simp only [hndone, Bool.false_eq_true, if_false, hstep, hne, ite_false,
        if_neg, not_false_eq_true, hEq]

/-- Facing RIGHT with `x = -n ≤ 0`, the move loop reaches `x = 0`. -/
theorem moveLoop_X_neg (xB : Int) : ∀ (n : Nat) (y : Int) (o : Orient) (r : Robot),
    r.pos = o.coords → r.facing = o.side → o.side = Side.RIGHT →
    o.coords = ⟨-(n : Int), y⟩ →
    ∃ o' r' cmds, moveLoop .X xB n o r = some (o', r', cmds)
      ∧ o'.coords = ⟨0, y⟩ ∧ o'.side = o.side
      ∧ r'.pos = (⟨0, y⟩ : Coords) ∧ r'.facing = o.side := by
  intro n
  induction n with
  | zero =>
      intro y o r h1 h2 h3 h4
      have hdone : axisDone .X o.coords = true := by
        simp [axisDone, h4]
      refine ⟨o, r, [], ?_, ?_, rfl, ?_, ?_⟩
      · rw [moveLoop]
        simp [hdone]
      · simpa using h4
      · rw [h1, h4]
        simp
      · exact h2
  | succ n ih =>
      intro y o r h1 h2 h3 h4
      have hndone : axisDone .X o.coords = false := by
        simp [axisDone, h4]
        omega
      have hstep : (r.doMove).pos = (⟨-(n : Int), y⟩ : Coords) := by
        simp only [Robot.doMove, h1, h2, h3]
        simp +decide [stepCoords, Side.RIGHT, h4, Coords.mk.injEq] <;> omega
      have hfac : (r.doMove).facing = o.side := by
        simp [Robot.doMove, h2]
      have hne : ¬ ((⟨-(n : Int), y⟩ : Coords) = o.coords) := by
        rw [h4]
        simp [Coords.mk.injEq] <;> omega
      obtain ⟨o', r', cmds, hEq, ho1, ho2, hr1, hr2⟩ :=
        ih y { o with coords := (⟨-(n : Int), y⟩ : Coords) } r.doMove hstep hfac h3 rfl
      refine ⟨o', r', .serverMove :: cmds, ?_, ho1, ho2, hr1, hr2⟩
      rw [moveLoop]
      simp only [hndone, Bool.false_eq_true, if_false, hstep, hne, ite_false,
        if_neg, not_false_eq_true, hEq]

/-- Facing DOWN with `y = n ≥ 0`, the move loop reaches `y = 0`. -/
theorem moveLoop_Y_pos (xB : Int) : ∀ (n : Nat) (x : Int) (o : Orient) (r : Robot),
    r.pos = o.coords → r.facing = o.side → o.side = Side.DOWN →
    o.coords = ⟨x, (n : Int)⟩ →
    ∃ o' r' cmds, moveLoop .Y xB n o r = some (o', r', cmds)
      ∧ o'.coords = ⟨x, 0⟩ ∧ o'.side = o.side
      ∧ r'.pos = (⟨x, 0⟩ : Coords) ∧ r'.facing = o.side := by
  intro n
  induction n with
  | zero =>
      intro x o r h1 h2 h3 h4
      have hdone : axisDone .Y o.coords = true := by
        simp [axisDone, h4]
      refine ⟨o, r, [], ?_, ?_, rfl, ?_, ?_⟩
      · rw [moveLoop]
        simp [hdone]
      · simpa using h4
      · rw [h1, h4]
        simp
      · exact h2
  | succ n ih =>
      intro x o r h1 h2 h3 h4
      have hndone : axisDone .Y o.coords = false := by
        simp [axisDone, h4]
        omega
      have hstep : (r.doMove).pos = (⟨x, (n : Int)⟩ : Coords) := by
        simp only [Robot.doMove, h1, h2, h3]
        simp +decide [stepCoords, Side.DOWN, h4, Coords.mk.injEq] <;> omega
      have hfac : (r.doMove).facing = o.side := by
        simp [Robot.doMove, h2]
      have hne : ¬ ((⟨x, (n : Int)⟩ : Coords) = o.coords) := by
        rw [h4]
        simp [Coords.mk.injEq] <;> omega
      obtain ⟨o', r', cmds, hEq, ho1, ho2, hr1, hr2⟩ :=
        ih x { o with coords := (⟨x, (n : Int)⟩ : Coords) } r.doMove hstep hfac h3 rfl
      refine ⟨o', r', .serverMove :: cmds, ?_, ho1, ho2, hr1, hr2⟩
      rw [moveLoop]
      simp only [hndone, Bool.false_eq_true, if_false, hstep, hne, ite_false,
        if_neg, not_false_eq_true, hEq]

/-- Facing UP with `y = -n ≤ 0`, the move loop reaches `y = 0`. -/
theorem moveLoop_Y_neg (xB : Int) : ∀ (n : Nat) (x : Int) (o : Orient) (r : Robot),
    r.pos = o.coords → r.facing = o.side → o.side = Side.UP →
    o.coords = ⟨x, -(n : Int)⟩ →
    ∃ o' r' cmds, moveLoop .Y xB n o r = some (o', r', cmds)
      ∧ o'.coords = ⟨x, 0⟩ ∧ o'.side = o.side
      ∧ r'.pos = (⟨x, 0⟩ : Coords) ∧ r'.facing = o.side := by
  intro n
  induction n with
  | zero =>
      intro x o r h1 h2 h3 h4
      have hdone : axisDone .Y o.coords = true := by
        simp [axisDone, h4]
      refine ⟨o, r, [], ?_, ?_, rfl, ?_, ?_⟩
      · rw [moveLoop]
        simp [hdone]
      · simpa using h4
      · rw [h1, h4]
        simp
      · exact h2
  | succ n ih =>
      intro x o r h1 h2 h3 h4
      have hndone : axisDone .Y o.coords = false := by
        simp [axisDone, h4]
        omega
      have hstep : (r.doMove).pos = (⟨x, -(n : Int)⟩ : Coords) := by
        simp only [Robot.doMove, h1, h2, h3]
        simp +decide [stepCoords, Side.UP, h4, Coords.mk.injEq] <;> omega
      have hfac : (r.doMove).facing = o.side := by
        simp [Robot.doMove, h2]
      have hne : ¬ ((⟨x, -(n : Int)⟩ : Coords) = o.coords) := by
        rw [h4]
        simp [Coords.mk.injEq] <;> omega
      obtain ⟨o', r', cmds, hEq, ho1, ho2, hr1, hr2⟩ :=
        ih x { o with coords := (⟨x, -(n : Int)⟩ : Coords) } r.doMove hstep hfac h3 rfl
      refine ⟨o', r', .serverMove :: cmds, ?_, ho1, ho2, hr1, hr2⟩
      rw [moveLoop]
      simp only [hndone, Bool.false_eq_true, if_false, hstep, hne, ite_false,
        if_neg, not_false_eq_true, hEq]

/-- `_move_to_0` on the X axis zeroes the x coordinate, keeping y. -/
theorem moveTo0_X_spec (o : Orient) (r : Robot)
    (h1 : r.pos = o.coords) (h2 : r.facing = o.side) :
    ∃ o' r' cmds, moveTo0 .X o.coords.x.natAbs o r = some (o', r', cmds)
      ∧ o'.coords = ⟨0, o.coords.y⟩ ∧ r'.pos = o'.coords ∧ r'.facing = o'.side := by
  unfold moveTo0
  by_cases hx : o.coords.x > 0
  · obtain ⟨hs, hc, hp, hf⟩ := rotateTo_spec o Side.LEFT r h1 h2
    simp only [hx, if_pos, if_true]
    obtain ⟨o', r', cmds, hEq, ho1, ho2, hr1, hr2⟩ :=
      moveLoop_X_pos o.coords.x o.coords.x.natAbs o.coords.y (rotateTo o Side.LEFT r).1
        (rotateTo o Side.LEFT r).2.1 (hp.trans hc.symm) (hf.trans hs.symm) hs
        (by rw [hc, show ((o.coords.x.natAbs : Int)) = o.coords.x from by omega])
    rw [hEq]
    exact ⟨o', r', (rotateTo o Side.LEFT r).2.2 ++ cmds, rfl, ho1, by rw [hr1, ho1],
      by rw [hr2, ho2, hs]⟩
  · obtain ⟨hs, hc, hp, hf⟩ := rotateTo_spec o Side.RIGHT r h1 h2
    simp only [hx, if_neg, if_false, not_false_eq_true]
    obtain ⟨o', r', cmds, hEq, ho1, ho2, hr1, hr2⟩ :=
      moveLoop_X_neg o.coords.x o.coords.x.natAbs o.coords.y (rotateTo o Side.RIGHT r).1
        (rotateTo o Side.RIGHT r).2.1 (hp.trans hc.symm) (hf.trans hs.symm) hs
        (by rw [hc, show (-(o.coords.x.natAbs : Int)) = o.coords.x from by omega])
    rw [hEq]
    exact ⟨o', r', (rotateTo o Side.RIGHT r).2.2 ++ cmds, rfl, ho1, by rw [hr1, ho1],
      by rw [hr2, ho2, hs]⟩

/-- `_move_to_0` on the Y axis zeroes the y coordinate, keeping x. -/
theorem moveTo0_Y_spec (o : Orient) (r : Robot)
    (h1 : r.pos = o.coords) (h2 : r.facing = o.side) :
    ∃ o' r' cmds, moveTo0 .Y o.coords.y.natAbs o r = some (o', r', cmds)
      ∧ o'.coords = ⟨o.coords.x, 0⟩ ∧ r'.pos = o'.coords ∧ r'.facing = o'.side := by
  unfold moveTo0
  by_cases hy : o.coords.y > 0
  · obtain ⟨hs, hc, hp, hf⟩ := rotateTo_spec o Side.DOWN r h1 h2
    simp only [hy, if_pos, if_true]
    obtain ⟨o', r', cmds, hEq, ho1, ho2, hr1, hr2⟩ :=
      moveLoop_Y_pos o.coords.x o.coords.y.natAbs o.coords.x (rotateTo o Side.DOWN r).1
        (rotateTo o Side.DOWN r).2.1 (hp.trans hc.symm) (hf.trans hs.symm) hs
        (by rw [hc, show ((o.coords.y.natAbs : Int)) = o.coords.y from by omega])
    rw [hEq]
    exact ⟨o', r', (rotateTo o Side.DOWN r).2.2 ++ cmds, rfl, ho1, by rw [hr1, ho1],
      by rw [hr2, ho2, hs]⟩
  · obtain ⟨hs, hc, hp, hf⟩ := rotateTo_spec o Side.UP r h1 h2
    simp only [hy, if_neg, if_false, not_false_eq_true]
    obtain ⟨o', r', cmds, hEq, ho1, ho2, hr1, hr2⟩ :=
      moveLoop_Y_neg o.coords.x o.coords.y.natAbs o.coords.x (rotateTo o Side.UP r).1
        (rotateTo o Side.UP r).2.1 (hp.trans hc.symm) (hf.trans hs.symm) hs
        (by rw [hc, show (-(o.coords.y.natAbs : Int)) = o.coords.y from by omega])
    rw [hEq]
    exact ⟨o', r', (rotateTo o Side.UP r).2.2 ++ cmds, rfl, ho1, by rw [hr1, ho1],
      by rw [hr2, ho2, hs]⟩

/-- `DefaultMover.move_to_start` reaches the origin from every start, with
fuel equal to the axis distances after orientation discovery. -/
theorem default_mover_reaches_origin (start : Coords) (facing : Side) :
    ∃ fx fy r cmds, defaultMoverRun fx fy ⟨start, facing⟩ = some (.ok (), r, cmds)
      ∧ r.pos = (⟨0, 0⟩ : Coords) := by
  by_cases hp : stepCoords start facing = (⟨0, 0⟩ : Coords)
  · refine ⟨0, 0, (⟨start, facing⟩ : Robot).doMove, [.serverMove], ?_, ?_⟩
    · unfold defaultMoverRun getOrientationM
      simp [Robot.doMove, hp]
    · simp [Robot.doMove, hp]
  · have hne2 : ¬ (stepCoords start facing
        = stepCoords (stepCoords start facing) facing) :=
      fun h => stepCoords_ne (stepCoords start facing) facing h.symm
    have hG : getOrientationM ⟨start, facing⟩
        = ((⟨start, facing⟩ : Robot).doMove.doMove, [.serverMove, .serverMove],
            .oriented ⟨stepCoords (stepCoords start facing) facing, facing⟩) := by
      unfold getOrientationM
      simp [Robot.doMove, hp, hne2, determineSide_step]
    obtain ⟨o2, r2', c2, hEq2, ho2c, hr2p, hr2f⟩ :=
      moveTo0_X_spec ⟨stepCoords (stepCoords start facing) facing, facing⟩
        ((⟨start, facing⟩ : Robot).doMove.doMove) rfl rfl
    have hEq2' : moveTo0 .X (stepCoords (stepCoords start facing) facing).x.natAbs
        ⟨stepCoords (stepCoords start facing) facing, facing⟩
        ((⟨start, facing⟩ : Robot).doMove.doMove) = some (o2, r2', c2) := hEq2
    obtain ⟨o3, r3, c3, hEq3, ho3c, hr3p, hr3f⟩ := moveTo0_Y_spec o2 r2' hr2p hr2f
    refine ⟨(stepCoords (stepCoords start facing) facing).x.natAbs,
      o2.coords.y.natAbs, r3, [.serverMove, .serverMove] ++ c2 ++ c3, ?_, ?_⟩
    · unfold defaultMoverRun
      rw [hG]
      simp only [hEq2', hEq3]
    · rw [hr3p, ho3c, show o2.coords.x = 0 from by rw [ho2c]]

/-! BFS planner lemmas.  The goal cell is (0,0) and the obstacle set is
empty throughout (the obstacle-free instance of the claim). -/

/-- Lookup over freshly prepended backtrack entries, all with parent
`cur`: a key among the new entries gets `cur`, others fall through. -/
theorem parLookup_map_append (l : List Coords) (cur : Coords)
    (par : List (Coords × Coords)) (c : Coords) :
    parLookup ((l.map fun n => (n, cur)) ++ par) c
      = if c ∈ l then some cur else parLookup par c := by
  unfold parLookup
  rw [List.find?_append]
  by_cases hc : c ∈ l
  · have hf : (l.map fun n => (n, cur)).find? (fun p => p.1 = c) = some (c, cur) := by
      induction l with
      | nil => cases hc
      | cons a t ih =>
          by_cases hac : a = c
          · subst hac
            simp
          · rcases List.mem_cons.mp hc with h | h
            · exact absurd h.symm hac
            · simp only [List.map_cons]
              rw [List.find?_cons_of_neg _ (by simp [hac])]
              exact ih h
    rw [hf]
    simp [hc]
  · have hf : (l.map fun n => (n, cur)).find? (fun p => p.1 = c) = none := by
      rw [List.find?_eq_none]
      intro x hx
      simp only [List.mem_map] at hx
      obtain ⟨n, hn, rfl⟩ := hx
      simp
      exact fun hnc => hc (hnc ▸ hn)
    rw [hf]
    simp [hc]

/-- `indexOf` into a list extended on the right is unchanged for members. -/
theorem indexOf_append_mem {l₁ : List Coords} (l₂ : List Coords) {a : Coords}
    (h : a ∈ l₁) : (l₁ ++ l₂).indexOf a = l₁.indexOf a :=
  List.indexOf_append_of_mem h

/-- `indexOf` of a freshly appended non-member is the old length. -/
theorem indexOf_append_self {l : List Coords} {a : Coords} (h : a ∉ l) :
    (l ++ [a]).indexOf a = l.length := by
  rw [List.indexOf_append_of_not_mem h]
  simp

/-- Members sit at an index below the length. -/
theorem indexOf_lt_length_mem {l : List Coords} {a : Coords} (h : a ∈ l) :
    l.indexOf a < l.length := List.indexOf_lt_length.mpr h

/-- The unvisited neighbours enqueued when `current` is processed. -/
def newNbrs (current : Coords) (visited : List Coords) : List Coords :=
  (neighboursOf current).filter (fun n => n ∉ visited ++ [current])

/-- Characterization of a non-final `_bfs` iteration on the obstacle-free
grid: the head is popped; a visited head is skipped, an unvisited one is
processed, enqueueing its unvisited neighbours with backtrack entries. -/
theorem bfsIter_next_cases {s s' : BfsState} (h : bfsIter [] s = .next s') :
    ∃ c rest, s.queue = c :: rest ∧ c ≠ (⟨0, 0⟩ : Coords) ∧
      ((c ∈ s.visited ∧ s' = { s with queue := rest }) ∨
       (c ∉ s.visited ∧
         s' = ⟨rest ++ newNbrs c s.visited, s.visited ++ [c],
           ((newNbrs c s.visited).map fun n => (n, c)) ++ s.par⟩)) := by
  unfold bfsIter at h
  rcases hq : s.queue with _ | ⟨c, rest⟩
  · rw [hq] at h
    cases h
  · rw [hq] at h
    by_cases hg : c = (⟨0, 0⟩ : Coords)
    · simp [hg] at h
    · simp only [hg, if_false, ite_false] at h
      by_cases hv : c ∈ s.visited
      · simp [hv] at h
        exact ⟨c, rest, rfl, hg, Or.inl ⟨hv, h.symm⟩⟩
      · simp [hv] at h
        refine ⟨c, rest, rfl, hg, Or.inr ⟨hv, ?_⟩⟩
        rw [← h]
        simp [newNbrs]

/-- Characterization of the final iteration: the goal is at the head, and
the break leaves visited and backtrack untouched. -/
theorem bfsIter_found_cases {s s' : BfsState} (h : bfsIter [] s = .found s') :
    s.queue = (⟨0, 0⟩ : Coords) :: s'.queue ∧ s'.visited = s.visited
      ∧ s'.par = s.par := by
  unfold bfsIter at h
  rcases hq : s.queue with _ | ⟨c, rest⟩
  · rw [hq] at h
    cases h
  · rw [hq] at h
    by_cases hg : c = (⟨0, 0⟩ : Coords)
    · subst hg
      simp only [if_pos] at h
      cases h
      exact ⟨rfl, rfl, rfl⟩
    · simp only [hg, if_false, ite_false] at h
      by_cases hv : c ∈ s.visited
      · simp [hv] at h
      · simp [hv] at h

/-- Cells already reached (visited or pending) stay reached across a
non-final iteration. -/
theorem reached_mono {s s' : BfsState} (h : bfsIter [] s = .next s')
    {c : Coords} (hr : Reached s c) : Reached s' c := by
  obtain ⟨c0, rest, hq, hg, hcase⟩ := bfsIter_next_cases h
  rcases hcase with ⟨hv, rfl⟩ | ⟨hv, rfl⟩
  · rcases hr with hvis | hque
    · exact Or.inl hvis
    · rw [hq] at hque
      rcases List.mem_cons.mp hque with rfl | hm
      · exact Or.inl hv
      · exact Or.inr hm
  · rcases hr with hvis | hque
    · exact Or.inl (List.mem_append.mpr (Or.inl hvis))
    · rw [hq] at hque
      rcases List.mem_cons.mp hque with rfl | hm
      · exact Or.inl (by simp)
      · exact Or.inr (by simp [hm])

/-- The search invariants are preserved by every non-final iteration. -/
theorem bfsInv_next {start : Coords} {s s' : BfsState}
    (hinv : BfsInv start s) (h : bfsIter [] s = .next s') : BfsInv start s' := by
  obtain ⟨c0, rest, hq, hg, hcase⟩ := bfsIter_next_cases h
  rcases hcase with ⟨hv, rfl⟩ | ⟨hv, rfl⟩
  · exact
      { qOk := fun c hc => hinv.qOk c (by rw [hq]; exact List.mem_cons_of_mem _ hc)
        visOk := hinv.visOk
        parAdj := hinv.parAdj
        parVis := hinv.parVis
        parIdx := hinv.parIdx
        goalNotVis := hinv.goalNotVis
        nbrOk := fun c hc n hn => reached_mono h (hinv.nbrOk c hc n hn) }
  · have hL : ∀ x, x ∈ newNbrs c0 s.visited ↔
        (x ∈ neighboursOf c0 ∧ x ∉ s.visited ++ [c0]) := by
      intro x
      simp [newNbrs, List.mem_filter]
    have hlook : ∀ x, parLookup (((newNbrs c0 s.visited).map fun n => (n, c0)) ++ s.par) x
        = if x ∈ newNbrs c0 s.visited then some c0 else parLookup s.par x :=
      fun x => parLookup_map_append _ _ _ x
    have hc0q : c0 ∈ s.queue := by rw [hq]; exact List.mem_cons_self _ _
    have hc0L : c0 ∉ newNbrs c0 s.visited := by
      intro hmem
      exact ((hL c0).mp hmem).2 (by simp)
    refine
      { qOk := ?_, visOk := ?_, parAdj := ?_, parVis := ?_, parIdx := ?_,
        goalNotVis := ?_, nbrOk := ?_ }
    · intro c hc
      rcases List.mem_append.mp hc with hcr | hcL
      · rcases hinv.qOk c (by rw [hq]; exact List.mem_cons_of_mem _ hcr) with hs | hs
        · exact Or.inl hs
        · right
          rw [hlook c]
          split
          · simp
          · exact hs
      · right
        rw [hlook c, if_pos hcL]
        simp
    · intro c hc
      rcases List.mem_append.mp hc with hcv | hcc
      · rcases hinv.visOk c hcv with hs | hs
        · exact Or.inl hs
        · right
          rw [hlook c]
          split
          · simp
          · exact hs
      · simp only [List.mem_singleton] at hcc
        subst hcc
        rcases hinv.qOk c hc0q with hs | hs
        · exact Or.inl hs
        · right
          rw [hlook c, if_neg hc0L]
          exact hs
    · intro c p hp
      rw [hlook c] at hp
      by_cases hcL : c ∈ newNbrs c0 s.visited
      · rw [if_pos hcL] at hp
        injection hp with hp
        subst hp
        exact ((hL c).mp hcL).1
      · rw [if_neg hcL] at hp
        exact hinv.parAdj c p hp
    · intro c p hp
      rw [hlook c] at hp
      by_cases hcL : c ∈ newNbrs c0 s.visited
      · rw [if_pos hcL] at hp
        injection hp with hp
        subst hp
        simp
      · rw [if_neg hcL] at hp
        exact List.mem_append.mpr (Or.inl (hinv.parVis c p hp))
    · intro c p hp hcv
      rw [hlook c] at hp
      by_cases hcL : c ∈ newNbrs c0 s.visited
      · exact absurd hcv ((hL c).mp hcL).2
      · rw [if_neg hcL] at hp
        have hpv : p ∈ s.visited := hinv.parVis c p hp
        rcases List.mem_append.mp hcv with hcv' | hcc
        · rw [indexOf_append_mem _ hcv', indexOf_append_mem _ hpv]
          exact hinv.parIdx c p hp hcv'
        · simp only [List.mem_singleton] at hcc
          subst hcc
          rw [indexOf_append_self hv, indexOf_append_mem _ hpv]
          exact indexOf_lt_length_mem hpv
    · intro hgv
      rcases List.mem_append.mp hgv with hgv' | hgc
      · exact hinv.goalNotVis hgv'
      · simp only [List.mem_singleton] at hgc
        exact hg hgc.symm
    · intro c hc n hn
      rcases List.mem_append.mp hc with hcv | hcc
      · exact reached_mono h (hinv.nbrOk c hcv n hn)
      · simp only [List.mem_singleton] at hcc
        subst hcc
        by_cases hnv : n ∈ s.visited ++ [c]
        · exact Or.inl hnv
        · right
          exact List.mem_append.mpr (Or.inr ((hL n).mpr ⟨hn, hnv⟩))

/-- Transitivity of iteration chains. -/
theorem bfsSteps_trans {s1 s2 s3 : BfsState}
    (h1 : BfsSteps s1 s2) (h2 : BfsSteps s2 s3) : BfsSteps s1 s3 := by
  induction h2 with
  | refl => exact h1
  | tail _ hiter ih => exact .tail ih hiter

/-- The invariants hold along every iteration chain. -/
theorem bfsInv_steps {start : Coords} {s s' : BfsState}
    (hinv : BfsInv start s) (h : BfsSteps s s') : BfsInv start s' := by
  induction h with
  | refl => exact hinv
  | tail _ hiter ih => exact bfsInv_next ih hiter

/-- A later state finding the goal means the earlier one does. -/
theorem findsGoal_of_steps {s s' : BfsState} (h : BfsSteps s s')
    (hf : FindsGoal s') : FindsGoal s := by
  obtain ⟨t, t', hst, hit⟩ := hf
  exact ⟨t, t', bfsSteps_trans h hst, hit⟩

/-- A fuelled run from a later state extends to one from an earlier state. -/
theorem bfsRun_of_steps {s s' : BfsState} (h : BfsSteps s s') :
    ∀ {n : Nat} {res : Bool × BfsState}, bfsRun [] n s' = some res →
      ∃ m, bfsRun [] m s = some res := by
  induction h with
  | refl => exact fun {n res} hr => ⟨n, hr⟩
  | tail _ hiter ih =>
      intro n res hr
      refine ih (show bfsRun [] (n + 1) _ = some res from ?_)
      rw [bfsRun, hiter]
      exact hr

/-- A chain of iterations ending in the goal-break admits a fuelled run
that returns the break state. -/
theorem findsGoal_run {s t t' : BfsState} (hst : BfsSteps s t)
    (hit : bfsIter [] t = .found t') :
    ∃ m, bfsRun [] m s = some (true, t') := by
  have h1 : bfsRun [] 1 t = some (true, t') := by
    rw [bfsRun, hit]
  exact bfsRun_of_steps hst h1

/-- Every pending cell is eventually dequeued: either the goal breaks the
loop first, or the cell becomes visited. -/
theorem bfs_processes {start : Coords} :
    ∀ (k : Nat) (s : BfsState) (c : Coords), BfsInv start s → c ∈ s.queue →
      s.queue.indexOf c < k →
      FindsGoal s ∨ ∃ s', BfsSteps s s' ∧ c ∈ s'.visited := by
  intro k
  induction k with
  | zero =>
      intro s c _ _ h
      omega
  | succ k ih =>
      intro s c hinv hcq hidx
      rcases hq : s.queue with _ | ⟨h0, rest⟩
      · rw [hq] at hcq
        cases hcq
      · by_cases hg : h0 = (⟨0, 0⟩ : Coords)
        · left
          refine ⟨s, { s with queue := rest }, .refl s, ?_⟩
          unfold bfsIter
          rw [hq]
          simp [hg]
        · have hiter : ∃ s₁, bfsIter [] s = .next s₁ := by
            unfold bfsIter
            rw [hq]
            by_cases hv : h0 ∈ s.visited <;> simp [hg, hv]
          obtain ⟨s₁, hit⟩ := hiter
          obtain ⟨c0, rest0, hq0, hg0, hcase⟩ := bfsIter_next_cases hit
          rw [hq] at hq0
          cases hq0
          by_cases hch : c = h0
          · subst hch
            rcases hcase with ⟨hv, rfl⟩ | ⟨hv, rfl⟩
            · exact Or.inr ⟨_, .tail (.refl s) hit, hv⟩
            · exact Or.inr ⟨_, .tail (.refl s) hit, by simp⟩
          · have hcr : c ∈ rest := by
              rw [hq] at hcq
              rcases List.mem_cons.mp hcq with e | e
              · exact absurd e hch
              · exact e
            have hidx' : rest.indexOf c < k := by
              rw [hq, List.indexOf_cons_ne _ (fun e => hch e.symm)] at hidx
              omega
            have hinv₁ : BfsInv start s₁ := bfsInv_next hinv hit
            have hcq₁ : c ∈ s₁.queue ∧ s₁.queue.indexOf c ≤ rest.indexOf c := by
              rcases hcase with ⟨hv, rfl⟩ | ⟨hv, rfl⟩
              · exact ⟨hcr, Nat.le_refl _⟩
              · exact ⟨by simp [hcr], by rw [indexOf_append_mem _ hcr]⟩
            rcases ih s₁ c hinv₁ hcq₁.1 (Nat.lt_of_le_of_lt hcq₁.2 hidx') with
              hf | ⟨s₂, hst, hcv⟩
            · exact Or.inl (findsGoal_of_steps (.tail (.refl s) hit) hf)
            · exact Or.inr ⟨s₂, bfsSteps_trans (.tail (.refl s) hit) hst, hcv⟩

/-- Distance zero means equality. -/
theorem mdist_zero_eq {a b : Coords} (h : mdist a b = 0) : b = a := by
  obtain ⟨ax, ay⟩ := a
  obtain ⟨bx, bb⟩ := b
  unfold mdist at h
  simp only [Coords.mk.injEq]
  simp only at h
  omega

/-- A cell at distance `d + 1` neighbours a cell at distance `d`. -/
theorem mdist_succ_nbr {a c : Coords} {d : Nat} (h : mdist a c = d + 1) :
    ∃ b, c ∈ neighboursOf b ∧ mdist a b = d := by
  obtain ⟨ax, ay⟩ := a
  obtain ⟨cx, cy⟩ := c
  unfold mdist at h
  simp only at h
  by_cases hx1 : cx > ax
  · refine ⟨⟨cx - 1, cy⟩, ?_, ?_⟩
    · simp [neighboursOf, Coords.mk.injEq] <;> omega
    · unfold mdist
      simp only
      omega
  · by_cases hx2 : cx < ax
    · refine ⟨⟨cx + 1, cy⟩, ?_, ?_⟩
      · simp [neighboursOf, Coords.mk.injEq] <;> omega
      · unfold mdist
        simp only
        omega
    · by_cases hy1 : cy > ay
      · refine ⟨⟨cx, cy - 1⟩, ?_, ?_⟩
        · simp [neighboursOf, Coords.mk.injEq] <;> omega
        · unfold mdist
          simp only
          omega
      · refine ⟨⟨cx, cy + 1⟩, ?_, ?_⟩
        · simp [neighboursOf, Coords.mk.injEq] <;> omega
        · unfold mdist
          simp only
          omega

/-- The invariants hold at the initial search state. -/
theorem bfsInv_init (start : Coords) : BfsInv start ⟨[start], [], []⟩ :=
  { qOk := fun c hc => Or.inl (by simpa using hc)
    visOk := fun c hc => absurd hc (List.not_mem_nil c)
    parAdj := fun c p hp => by cases hp
    parVis := fun c p hp => by cases hp
    parIdx := fun c p hp => by cases hp
    goalNotVis := List.not_mem_nil _
    nbrOk := fun c hc => absurd hc (List.not_mem_nil c) }

/-- Every cell is eventually reached, unless the goal is dequeued first. -/
theorem bfs_reaches (start : Coords) :
    ∀ (d : Nat) (c : Coords), mdist start c = d →
      FindsGoal ⟨[start], [], []⟩ ∨
        ∃ s', BfsSteps ⟨[start], [], []⟩ s' ∧ Reached s' c := by
  intro d
  induction d with
  | zero =>
      intro c hc
      have hcs : c = start := mdist_zero_eq hc
      subst hcs
      exact Or.inr ⟨_, .refl _, Or.inr (by simp)⟩
  | succ d ih =>
      intro c hc
      obtain ⟨b, hcb, hb⟩ := mdist_succ_nbr hc
      rcases ih b hb with hf | ⟨s₁, hst, hrb⟩
      · exact Or.inl hf
      · have hinv₁ : BfsInv start s₁ := bfsInv_steps (bfsInv_init start) hst
        rcases hrb with hbv | hbq
        · exact Or.inr ⟨s₁, hst, hinv₁.nbrOk b hbv c hcb⟩
        · rcases bfs_processes (s₁.queue.indexOf b + 1) s₁ b hinv₁ hbq
              (Nat.lt_succ_self _) with hf | ⟨s₂, hst₂, hbv₂⟩
          · exact Or.inl (findsGoal_of_steps hst hf)
          · have hinv₂ : BfsInv start s₂ := bfsInv_steps hinv₁ hst₂
            exact Or.inr ⟨s₂, bfsSteps_trans hst hst₂, hinv₂.nbrOk b hbv₂ c hcb⟩

/-- On the obstacle-free grid the search always dequeues the goal. -/
theorem bfs_finds_goal (start : Coords) (h : start ≠ (⟨0, 0⟩ : Coords)) :
    FindsGoal ⟨[start], [], []⟩ := by
  rcases bfs_reaches start (mdist start ⟨0, 0⟩) ⟨0, 0⟩ rfl with hf | ⟨s₁, hst, hr⟩
  · exact hf
  · have hinv₁ : BfsInv start s₁ := bfsInv_steps (bfsInv_init start) hst
    rcases hr with hv | hqmem
    · exact absurd hv hinv₁.goalNotVis
    · rcases bfs_processes (s₁.queue.indexOf ⟨0, 0⟩ + 1) s₁ ⟨0, 0⟩ hinv₁ hqmem
          (Nat.lt_succ_self _) with hf | ⟨s₂, hst₂, hv₂⟩
      · exact findsGoal_of_steps hst hf
      · have hinv₂ : BfsInv start s₂ := bfsInv_steps hinv₁ hst₂
        exact absurd hv₂ hinv₂.goalNotVis

/-- The last cell of an empty walk is the current cell. -/
theorem lastOf_nil (a : Coords) : lastOf a [] = a := rfl

/-- The last cell of a walk ignores the dropped head. -/
theorem lastOf_cons (a b : Coords) (l : List Coords) :
    lastOf a (b :: l) = lastOf b l := by
  unfold lastOf
  exact List.getLast_cons (by simp)

/-- Extending a chain by a neighbour of its last cell. -/
theorem chain_snoc : ∀ (l : List Coords) (a b c : Coords), Chain a l →
    lastOf a l = b → c ∈ neighboursOf b →
    Chain a (l ++ [c]) ∧ lastOf a (l ++ [c]) = c := by
  intro l
  induction l with
  | nil =>
      intro a b c _ hl hn
      have hab : a = b := hl
      subst hab
      exact ⟨⟨hn, trivial⟩, by rw [List.nil_append, lastOf_cons, lastOf_nil]⟩
  | cons d t ih =>
      intro a b c hch hl hn
      obtain ⟨hd, ht⟩ := hch
      have hl' : lastOf d t = b := by
        rw [lastOf_cons] at hl
        exact hl
      obtain ⟨hc1, hc2⟩ := ih d b c ht hl' hn
      refine ⟨⟨hd, hc1⟩, ?_⟩
      rw [List.cons_append, lastOf_cons]
      exact hc2

/-- One-step unfolding of the reconstruction loop. -/
theorem reconstructFrom_succ (par : List (Coords × Coords)) (start : Coords)
    (fuel : Nat) (c : Coords) :
    reconstructFrom par start (fuel + 1) c
      = if c = start then some [c]
        else
          match parLookup par c with
          | none => none
          | some p => (reconstructFrom par start fuel p).map (fun rest => c :: rest) :=
  rfl

/-- Following the backtrack map from any recorded cell reconstructs a
start-rooted chain of neighbours ending at that cell. -/
theorem bfs_reconstructs {start : Coords} {s : BfsState} (hinv : BfsInv start s) :
    ∀ (k : Nat) (p c : Coords), p ∈ s.visited → s.visited.indexOf p < k →
      parLookup s.par c = some p →
      ∃ fuel bl rest, reconstructFrom s.par start fuel c = some bl
        ∧ bl.reverse = start :: rest ∧ Chain start rest ∧ lastOf start rest = c := by
  intro k
  induction k with
  | zero =>
      intro p c _ h _
      omega
  | succ k ih =>
      intro p c hpv hpi hlook
      by_cases hcs : c = start
      · refine ⟨0 + 1, [c], [], ?_, by simp [hcs], trivial, hcs.symm⟩
        rw [reconstructFrom_succ, if_pos hcs]
      · by_cases hps : p = start
        · have hbase : reconstructFrom s.par start 1 start = some [start] := by
            have h := reconstructFrom_succ s.par start 0 start
            simpa using h
          refine ⟨0 + 1 + 1, [c, start], [c], ?_, by simp, ?_, ?_⟩
          · rw [reconstructFrom_succ, if_neg hcs, hlook, hps]
            simp [hbase]
          · exact ⟨hps ▸ hinv.parAdj c p hlook, trivial⟩
          · rw [lastOf_cons, lastOf_nil]
        · rcases hinv.visOk p hpv with hps' | hq
          · exact absurd hps' hps
          · obtain ⟨q, hq⟩ := Option.isSome_iff_exists.mp hq
            have hqv : q ∈ s.visited := hinv.parVis p q hq
            have hqi : s.visited.indexOf q < s.visited.indexOf p :=
              hinv.parIdx p q hq hpv
            obtain ⟨fuel₁, bl₁, rest₁, hrec₁, hrev₁, hch₁, hl₁⟩ :=
              ih q p hqv (by omega) hq
            refine ⟨fuel₁ + 1, c :: bl₁, rest₁ ++ [c], ?_, ?_, ?_, ?_⟩
            · rw [reconstructFrom_succ, if_neg hcs, hlook]
              simp [hrec₁]
            · simp [hrev₁]
            · exact (chain_snoc rest₁ start p c hch₁ hl₁ (hinv.parAdj c p hlook)).1
            · exact (chain_snoc rest₁ start p c hch₁ hl₁ (hinv.parAdj c p hlook)).2

/-- Walking a start-rooted chain ending at the origin brings the robot to
the origin (obstacle-free, so the re-planning branch is never taken). -/
theorem walkLoop_reaches : ∀ (l : List Coords) (o : Orient) (r : Robot)
    (obstacles : List Coords) (bf rf : Nat),
    r.pos = o.coords → r.facing = o.side → Chain o.coords l →
    lastOf o.coords l = (⟨0, 0⟩ : Coords) →
    ∃ o' r' cmds, walkLoop bf rf (l.length + 1) obstacles l o r = some (o', r', cmds)
      ∧ r'.pos = (⟨0, 0⟩ : Coords) := by
  intro l
  induction l with
  | nil =>
      intro o r obstacles bf rf h1 h2 _ hl
      refine ⟨o, r, [], ?_, ?_⟩
      · rw [walkLoop]
      · rw [h1]
        exact hl
  | cons next rest ih =>
      intro o r obstacles bf rf h1 h2 hch hl
      obtain ⟨hnb, hch'⟩ := hch
      by_cases h00 : o.coords = (⟨0, 0⟩ : Coords)
      · refine ⟨o, r, [], ?_, by rw [h1]; exact h00⟩
        rw [walkLoop]
        simp [h00]
      · obtain ⟨sd, hsd, hstep⟩ := neighboursOf_step o.coords next hnb
        obtain ⟨hs, hc, hp, hf⟩ := rotateTo_spec o sd r h1 h2
        have hpos : ((rotateTo o sd r).2.1.doMove).pos = next := by
          simp only [Robot.doMove, hp, hf, hs]
          exact hstep
        have hnn : next ≠ o.coords := fun he => stepCoords_ne o.coords sd (he ▸ hstep)
        have hneq : ¬ ((rotateTo o sd r).1.coords = ((rotateTo o sd r).2.1.doMove).pos) := by
          rw [hpos, hc]
          exact fun he => hnn he.symm
        have hlast' : lastOf next rest = (⟨0, 0⟩ : Coords) := by
          rw [lastOf_cons] at hl
          exact hl
        obtain ⟨o', r', cmds, hEq, hpos'⟩ :=
          ih { (rotateTo o sd r).1 with coords := next } ((rotateTo o sd r).2.1.doMove)
            obstacles bf rf hpos (by simp [Robot.doMove, hf, hs]) hch' hlast'
        have hneq' : ¬ ((rotateTo o sd r).1.coords = next) := by
          rw [hc]
          exact fun he => hnn he.symm
        refine ⟨o', r', (rotateTo o sd r).2.2 ++ [.serverMove] ++ cmds, ?_, hpos'⟩
        rw [walkLoop]
        simp only [if_neg h00, hsd, hpos, if_neg hneq', List.length_cons, hEq]

/-- With enough fuel, `_move_to_center` drives the robot to the origin:
the single obstacle-free plan is a start-rooted neighbour chain ending at
(0,0), and walking it never triggers the re-planning branch. -/
theorem moveToCenter_reaches (o : Orient) (r : Robot) (h1 : r.pos = o.coords)
    (h2 : r.facing = o.side) :
    ∃ bf rf wf o' r' cmds, moveToCenter bf rf wf o r = some (o', r', cmds)
      ∧ r'.pos = (⟨0, 0⟩ : Coords) := by
  by_cases h0 : o.coords = (⟨0, 0⟩ : Coords)
  · refine ⟨0, 0, 0, o, r, [], ?_, by rw [h1]; exact h0⟩
    unfold moveToCenter
    rw [if_pos h0]
  · obtain ⟨t, t', hst, hit⟩ := bfs_finds_goal o.coords h0
    obtain ⟨m, hrun⟩ := findsGoal_run hst hit
    obtain ⟨hq, hv, hp⟩ := bfsIter_found_cases hit
    have hinvt : BfsInv o.coords t := bfsInv_steps (bfsInv_init o.coords) hst
    have hg : (⟨0, 0⟩ : Coords) ∈ t.queue := by
      rw [hq]
      simp
    have hlook : (parLookup t.par (⟨0, 0⟩ : Coords)).isSome := by
      rcases hinvt.qOk _ hg with he | hs
      · exact absurd he.symm h0
      · exact hs
    obtain ⟨p, hploo⟩ := Option.isSome_iff_exists.mp hlook
    have hpv : p ∈ t.visited := hinvt.parVis _ p hploo
    obtain ⟨fuel, bl, rest, hrec, hrev, hch, hlast⟩ :=
      bfs_reconstructs hinvt (t.visited.indexOf p + 1) p ⟨0, 0⟩ hpv
        (Nat.lt_succ_self _) hploo
    have hbfsF : bfsF o.coords [] m fuel = some (o.coords :: rest) := by
      unfold bfsF
      rw [hrun]
      simp [hp, hrec, hrev]
    obtain ⟨o', r', cmds, hwalk, hpos'⟩ :=
      walkLoop_reaches rest o r [] m fuel h1 h2 hch hlast
    refine ⟨m, fuel, rest.length + 1, o', r', cmds, ?_, hpos'⟩
    unfold moveToCenter
    rw [if_neg h0, hbfsF]
    exact hwalk

/-- The BFS mover, from any start and heading, ends with the robot at the
origin for some fuel choices; the first-move arrival is the `None` branch
of `_get_orientation`. -/
theorem bfs_mover_reaches_origin (start : Coords) (facing : Side) :
    ∃ bf rf wf r cmds, bfsMoverRun bf rf wf ⟨start, facing⟩ = some (.ok (), r, cmds)
      ∧ r.pos = (⟨0, 0⟩ : Coords) := by
  by_cases hp : stepCoords start facing = (⟨0, 0⟩ : Coords)
  · refine ⟨0, 0, 0, (⟨start, facing⟩ : Robot).doMove, [.serverMove], ?_, ?_⟩
    · unfold bfsMoverRun getOrientationM
      simp [Robot.doMove, hp]
    · simp [Robot.doMove, hp]
  · have hne2 : ¬ (stepCoords start facing
        = stepCoords (stepCoords start facing) facing) :=
      fun h => stepCoords_ne (stepCoords start facing) facing h.symm
    have hG : getOrientationM ⟨start, facing⟩
        = ((⟨start, facing⟩ : Robot).doMove.doMove, [.serverMove, .serverMove],
            .oriented ⟨stepCoords (stepCoords start facing) facing, facing⟩) := by
      unfold getOrientationM
      simp [Robot.doMove, hp, hne2, determineSide_step]
    obtain ⟨bf, rf, wf, o', r', cmds, hM, hpos⟩ :=
      moveToCenter_reaches ⟨stepCoords (stepCoords start facing) facing, facing⟩
        ((⟨start, facing⟩ : Robot).doMove.doMove) rfl rfl
    refine ⟨bf, rf, wf, r', [.serverMove, .serverMove] ++ cmds, ?_, hpos⟩
    unfold bfsMoverRun
    rw [hG]
    simp only [hM]

/-- Claim C9: from every starting position other than the origin and every
starting heading, on the obstacle-free grid with a truthful client that
moves one cell per MOVE in its current heading, both the simple planner
(`DefaultMover.move_to_start`) and the BFS planner (`BFSMover.move_to_start`)
terminate with `Ok` after a bounded number of commands and leave the client
at (0,0) — here, some finite fuel suffices for each loop of the embedding. -/
theorem movers_reach_origin (start : Coords) (facing : Side)
    (h : start ≠ (⟨0, 0⟩ : Coords)) :
    (∃ fx fy r cmds, defaultMoverRun fx fy ⟨start, facing⟩ = some (.ok (), r, cmds)
        ∧ r.pos = (⟨0, 0⟩ : Coords))
      ∧ (∃ bf rf wf r cmds, bfsMoverRun bf rf wf ⟨start, facing⟩
          = some (.ok (), r, cmds) ∧ r.pos = (⟨0, 0⟩ : Coords)) :=
  ⟨default_mover_reaches_origin start facing, bfs_mover_reaches_origin start facing⟩

/-- Concrete instance of C9 at start (2,1) heading UP. -/
theorem movers_reach_origin_witness :
    (⟨2, 1⟩ : Coords) ≠ (⟨0, 0⟩ : Coords)
      ∧ ((∃ fx fy r cmds, defaultMoverRun fx fy ⟨⟨2, 1⟩, Side.UP⟩
            = some (.ok (), r, cmds) ∧ r.pos = (⟨0, 0⟩ : Coords))
          ∧ (∃ bf rf wf r cmds, bfsMoverRun bf rf wf ⟨⟨2, 1⟩, Side.UP⟩
              = some (.ok (), r, cmds) ∧ r.pos = (⟨0, 0⟩ : Coords))) :=
  ⟨by decide, movers_reach_origin ⟨2, 1⟩ Side.UP (by decide)⟩

end RobotServer
